import Mathlib

/-!
Verification development for the vct-calendar repository: a shallow
embedding of the scraper (`src/scraper.py`), the data models
(`src/models.py`), the calendar generation layer
(`src/calendar_generator.py`) and the update workflow
(`update_calendar.py`), together with theorems settling the frozen
claims about the natural-language specification.

Python strings are embedded as Lean `String`/`List Char`; Python's
`str` helpers (`replace`, `strip`, `split`, `title`, `lower`,
`isdigit`) are re-implemented on `List Char` with their Python
semantics.  Machine-level concerns do not arise (the program uses
arbitrary-precision ints and text).  BeautifulSoup DOM queries are
modelled by carrying, for each anchor/link, the texts the source
extracts from the DOM; all textual processing applied to those texts
is embedded from the source.
-/

set_option maxRecDepth 4096

namespace VCT

/-! ## Python string primitives on `List Char` -/

/-- Python `\s` / `str.strip` whitespace (ASCII subset used by the data). -/
def isPySpace (c : Char) : Bool :=
  c = ' ' ∨ c = '\t' ∨ c = '\n' ∨ c = '\r' ∨ c = '\x0b' ∨ c = '\x0c'

/-- Regex word character `\w` (ASCII): letters, digits, underscore. -/
def isWordChar (c : Char) : Bool :=
  c.isAlphanum ∨ c = '_'

/-- Python `str.strip()` (leading and trailing whitespace removed). -/
def pyStrip (s : List Char) : List Char :=
  ((s.dropWhile isPySpace).reverse.dropWhile isPySpace).reverse

def strStrip (s : String) : String :=
  (pyStrip s.toList).asString

/-- `re.sub(r"\s+", " ", s)`: every maximal whitespace run becomes one space.
The flag records whether the previous character was whitespace. -/
def collapseWsAux : Bool → List Char → List Char
  | _, [] => []
  | prevWs, c :: s =>
      if isPySpace c then
        if prevWs then collapseWsAux true s else ' ' :: collapseWsAux true s
      else c :: collapseWsAux false s

def collapseWs (s : List Char) : List Char := collapseWsAux false s

/-- Python `str.replace(pat, rep)`: left-to-right, non-overlapping.
Fuel-structural so that concrete evaluation reduces in the kernel; the
fuel is always instantiated with the length of the string, which the
scan never exhausts (each step consumes at least one character). -/
def pyReplaceAux (pat rep : List Char) : Nat → List Char → List Char
  | 0, s => s
  | fuel + 1, s =>
      match s with
      | [] => []
      | c :: t =>
          if pat ≠ [] ∧ pat.isPrefixOf s then
            rep ++ pyReplaceAux pat rep fuel (s.drop pat.length)
          else
            c :: pyReplaceAux pat rep fuel t

def pyReplace (s pat rep : List Char) : List Char :=
  pyReplaceAux pat rep s.length s

def strReplace (s pat rep : String) : String :=
  (pyReplace s.toList pat.toList rep.toList).asString

/-- Python `str.split(sep)` for a non-empty separator. -/
def pySplitAux (sep : List Char) : Nat → List Char → List Char → List (List Char)
  | 0, acc, s => [(acc.reverse ++ s)]
  | fuel + 1, acc, s =>
      match s with
      | [] => [acc.reverse]
      | c :: t =>
          if sep ≠ [] ∧ sep.isPrefixOf s then
            acc.reverse :: pySplitAux sep fuel [] (s.drop sep.length)
          else
            pySplitAux sep fuel (c :: acc) t

def pySplit (s sep : List Char) : List (List Char) :=
  pySplitAux sep s.length [] s

/-- Python `str.lower()` (ASCII). -/
def pyLower (s : List Char) : List Char := s.map Char.toLower

def strLower (s : String) : String := (pyLower s.toList).asString

/-- Python `str.title()`: a cased character is uppercased when the
previous character is not cased, lowercased otherwise (ASCII letters
are the cased characters in this data). -/
def pyTitleAux : Bool → List Char → List Char
  | _, [] => []
  | prevCased, c :: s =>
      let c' := if c.isAlpha then (if prevCased then c.toLower else c.toUpper) else c
      c' :: pyTitleAux c.isAlpha s

def pyTitle (s : List Char) : List Char := pyTitleAux false s

/-- Python `str.isdigit()` (ASCII digits; true only for non-empty strings). -/
def pyIsDigit (s : List Char) : Bool :=
  s ≠ [] ∧ s.all Char.isDigit

/-- Substring containment (`pat in s` in Python). -/
def charsContains (pat : List Char) : List Char → Bool
  | [] => pat.isEmpty
  | c :: t => pat.isPrefixOf (c :: t) || charsContains pat t

def strContains (s pat : String) : Bool := charsContains pat.toList s.toList

/-- `s.endswith(pat)` on character lists. -/
def charsEndsWith (pat s : List Char) : Bool :=
  pat.length ≤ s.length ∧ s.drop (s.length - pat.length) = pat

def strEndsWith (s pat : String) : Bool := charsEndsWith pat.toList s.toList

def strStartsWith (s pat : String) : Bool := pat.toList.isPrefixOf s.toList

/-- `sep.join(parts)` (BeautifulSoup `get_text(separator=sep, strip=True)`
joins the stripped, non-empty DOM text fragments with the separator). -/
def joinWith (sep : List Char) : List (List Char) → List Char
  | [] => []
  | [p] => p
  | p :: ps => p ++ sep ++ joinWith sep ps

/-- The flattened text BeautifulSoup's `get_text(separator=sep, strip=True)`
produces from the DOM text fragments of an element. -/
def getTextWith (sep : String) (strips : List String) : String :=
  (joinWith sep.toList (((strips.map strStrip).filter (· ≠ "")).map String.toList)).asString

/-! ## Naive datetimes (Python `datetime.datetime`, minute resolution)

Every value the program produces has zero seconds and microseconds, so
those fields are not represented.  `toMinutes` is the proleptic
Gregorian calendar count used by Python's `datetime.toordinal`,
expressed in minutes. -/

structure DT where
  year : Nat
  month : Nat
  day : Nat
  hour : Nat
  minute : Nat
  deriving Repr, DecidableEq

def isLeapYear (y : Nat) : Bool :=
  y % 4 = 0 ∧ (y % 100 ≠ 0 ∨ y % 400 = 0)

def daysInMonth (y m : Nat) : Nat :=
  if m = 2 then (if isLeapYear y then 29 else 28)
  else if m = 4 ∨ m = 6 ∨ m = 9 ∨ m = 11 then 30
  else 31

/-- Days in all full years before year `y` (proleptic Gregorian, year ≥ 1). -/
def daysBeforeYear (y : Nat) : Nat :=
  365 * (y - 1) + (y - 1) / 4 - (y - 1) / 100 + (y - 1) / 400

/-- Days in the full months of year `y` before month `m`. -/
def daysBeforeMonth (y m : Nat) : Nat :=
  (List.range' 1 (m - 1)).foldl (fun acc k => acc + daysInMonth y k) 0

/-- Python `datetime.toordinal`: day number of a proleptic Gregorian date. -/
def DT.toOrdinal (d : DT) : Nat :=
  daysBeforeYear d.year + daysBeforeMonth d.year d.month + d.day

/-- Minutes since the calendar origin; two datetimes denote the same
instant in a common timezone exactly when their minute counts agree. -/
def DT.toMinutes (d : DT) : Nat :=
  (d.toOrdinal * 24 + d.hour) * 60 + d.minute

/-- Left-pad a value to `w` decimal digits (faithful to `%0wd` on the
value ranges a Python `datetime` admits). -/
def padDigits : Nat → Nat → List Char
  | 0, _ => []
  | w + 1, v => Char.ofNat (48 + v / 10 ^ w) :: padDigits w (v % 10 ^ w)

/-- Python `str(datetime(...))`: the canonical `YYYY-MM-DD HH:MM:SS` form
(seconds are always zero in this program). -/
def DT.render (d : DT) : String :=
  (padDigits 4 d.year ++ '-' :: padDigits 2 d.month ++ '-' :: padDigits 2 d.day ++
    ' ' :: padDigits 2 d.hour ++ ':' :: padDigits 2 d.minute ++ ':' :: padDigits 2 0).asString

/-! ## Data models (`src/models.py`, `src/config.py`) -/

structure Tournament where
  event_id : String
  name : String
  slug : String
  region : String
  dates : String
  url : String
  deriving Repr, DecidableEq

structure Match where
  match_id : String
  event_name : String
  tournament_phase : String
  team1 : String
  team2 : String
  datetime_wib : Option DT
  datetime_str : String
  match_url : String
  score1 : Option String := none
  score2 : Option String := none
  deriving Repr, DecidableEq

def Match.uid (m : Match) : String :=
  "match-" ++ m.match_id ++ "@vlr.gg"

def Match.summary (m : Match) : String :=
  m.event_name ++ " - " ++ m.team1 ++ " vs " ++ m.team2 ++ " (" ++ m.tournament_phase ++ ")"

def BASE_URL : String := "https://www.vlr.gg"

def EXCLUDED_REGIONS : List String := []

/-- Python truthiness of an `Optional[str]`: `None` and `""` are falsy. -/
def optTruthy : Option String → Bool
  | none => false
  | some s => s ≠ ""

/-- `urllib.parse.urljoin(BASE_URL, href)`, modelled for the reference
forms the site produces: absolute URLs pass through, root-relative
paths are attached to the base. -/
def urljoinModel (base href : String) : String :=
  if strStartsWith href "http://" ∨ strStartsWith href "https://" then href
  else if strStartsWith href "/" then base ++ href
  else base ++ "/" ++ href

/-! ## Calendar layer (`src/calendar_generator.py`, `update_calendar.py`)

An ICS component is modelled by the fields the program reads or
writes.  `name` is the component name (`"VEVENT"` for events); times
are UTC minute counts (`DT.toMinutes` of the UTC calendar time), with
`none` for an absent property.  WIB is UTC+7, so attaching the WIB
timezone and converting to UTC subtracts 420 minutes. -/

structure Event where
  name : String := "VEVENT"
  uid : String := ""
  summary : String := ""
  dtstart : Option Nat := none
  dtend : Option Nat := none
  status : String := ""
  description : String := ""
  url : String := ""
  dtstamp : Nat := 0
  deriving Repr, DecidableEq

def wibOffsetMinutes : Nat := 420

/-- `match_to_event`: `None` without a parsed time, otherwise the ICS
event with UTC start, start+2h end, and CONFIRMED exactly when both
score strings are truthy.  `now` is the wall clock read for DTSTAMP. -/
def match_to_event (now : Nat) (m : Match) : Option Event :=
  match m.datetime_wib with
  | none => none
  | some d =>
      let startUtc := d.toMinutes - wibOffsetMinutes
      some
        { name := "VEVENT"
          uid := m.uid
          summary := m.summary
          dtstart := some startUtc
          dtend := some (startUtc + 120)
          status := if optTruthy m.score1 && optTruthy m.score2 then "CONFIRMED" else "TENTATIVE"
          description := "Watch: " ++ m.match_url
          url := m.match_url
          dtstamp := now }

/-- The UIDs collected by walking a calendar: non-empty UIDs of VEVENTs. -/
def collectUids (cal : List Event) : List String :=
  cal.filterMap fun c => if c.name = "VEVENT" ∧ c.uid ≠ "" then some c.uid else none

/-- The loop body of `append_to_calendar`: the set of existing UIDs is
fixed before the loop and never extended while appending. -/
def appendLoop (now : Nat) (existing : List String) : List Match → List Event → List Event
  | [], cal => cal
  | m :: ms, cal =>
      if m.uid ∈ existing then appendLoop now existing ms cal
      else
        match match_to_event now m with
        | none => appendLoop now existing ms cal
        | some e => appendLoop now existing ms (cal ++ [e])

/-- `append_to_calendar` (in-memory core; file I/O elided). -/
def append_to_calendar (now : Nat) (ms : List Match) (cal : List Event) : List Event :=
  appendLoop now (collectUids cal) ms cal

/-- The rendering-relevant difference test of `update_calendar`:
summary, start (when both present) and status are compared. -/
def eventFieldsDiffer (old ne : Event) : Bool :=
  old.summary != ne.summary ||
    (match old.dtstart, ne.dtstart with
     | some a, some b => a != b
     | _, _ => false) ||
    old.status != ne.status

/-- Rewrite the rendering fields of an existing event from the freshly
generated one, stamping the update time, when something differs. -/
def applyUpdate (now : Nat) (ne old : Event) : Event :=
  if eventFieldsDiffer old ne then
    { old with
      summary := ne.summary
      dtstart := ne.dtstart
      dtend := ne.dtend
      status := ne.status
      dtstamp := now }
  else old

/-- Update the last entry satisfying `p` (the `existing_uids` dict is
keyed by UID, so a later component with the same UID shadows an
earlier one). -/
def updateLast (p : Event → Bool) (f : Event → Event) : List Event → List Event
  | [] => []
  | e :: es =>
      if es.any p then e :: updateLast p f es
      else if p e then f e :: es
      else e :: es

/-- One iteration of the `update_calendar` loop for one scraped match. -/
def updateStep (now : Nat) (cal : List Event) (m : Match) : List Event :=
  if cal.any (fun e => e.name = "VEVENT" ∧ e.uid = m.uid ∧ e.uid ≠ "") then
    match m.datetime_wib with
    | none => cal
    | some _ =>
        match match_to_event now m with
        | none => cal
        | some ne => updateLast (fun e => e.name = "VEVENT" ∧ e.uid = m.uid) (applyUpdate now ne) cal
  else cal

/-- `update_calendar` (in-memory core over the loaded components and the
scraped match list; scraping and file I/O elided). -/
def update_calendar (now : Nat) (cal : List Event) (ms : List Match) : List Event :=
  ms.foldl (updateStep now) cal

/-! ## Date/Time Normalizer (`parse_wib_datetime` in `src/scraper.py`) -/

def skipSpaces (s : List Char) : List Char := s.dropWhile isPySpace

/-- Read exactly `w` ASCII digits, most significant first. -/
def readExactDigitsAux (acc : Nat) : Nat → List Char → Option (Nat × List Char)
  | 0, s => some (acc, s)
  | _ + 1, [] => none
  | w + 1, c :: s =>
      if c.isDigit then readExactDigitsAux (acc * 10 + (c.toNat - 48)) w s else none

def readExactDigits (w : Nat) (s : List Char) : Option (Nat × List Char) :=
  readExactDigitsAux 0 w s

/-- Read one or two ASCII digits, consuming as many as possible. -/
def readDigits12 : List Char → Option (Nat × List Char)
  | [] => none
  | [c] => if c.isDigit then some (c.toNat - 48, []) else none
  | c :: d :: s =>
      if c.isDigit then
        if d.isDigit then some ((c.toNat - 48) * 10 + (d.toNat - 48), s)
        else some (c.toNat - 48, d :: s)
      else none

def expectChar (c : Char) : List Char → Option (List Char)
  | [] => none
  | x :: s => if x = c then some s else none

def monthNames : List (String × Nat) :=
  [("jan", 1), ("feb", 2), ("mar", 3), ("apr", 4), ("may", 5), ("jun", 6),
   ("jul", 7), ("aug", 8), ("sep", 9), ("oct", 10), ("nov", 11), ("dec", 12)]

/-- Read a case-insensitive three-letter month abbreviation. -/
def readMonthName : List Char → Option (Nat × List Char)
  | a :: b :: c :: s =>
      match monthNames.find? (fun p => p.1 = ([a.toLower, b.toLower, c.toLower]).asString) with
      | some p => some (p.2, s)
      | none => none
  | _ => none

/-- Read a case-insensitive meridiem marker; `true` means `pm`. -/
def readMeridiem : List Char → Option (Bool × List Char)
  | a :: m :: s =>
      if m.toLower = 'm' then
        if a.toLower = 'a' then some (false, s)
        else if a.toLower = 'p' then some (true, s)
        else none
      else none
  | _ => none

/-- Modelled from the spec: the external fuzzy natural-language date/time
parser (the `dateutil` dependency, not part of this repository) on the
`"<time> <meridiem> <month> <day>"` token order that the extraction layer
produces.  Per the spec, when the text carries no year the parser
defaults it to a value below the plausibility threshold (1900 here),
"indicating the parser defaulted it", and rejects out-of-range
components.  Returns a naive datetime. -/
def parseTimeMonthDay (s : List Char) : Option DT :=
  match readDigits12 s with
  | none => none
  | some (h12, s1) =>
      match expectChar ':' s1 with
      | none => none
      | some s2 =>
          match readExactDigits 2 s2 with
          | none => none
          | some (mi, s3) =>
              match readMeridiem (skipSpaces s3) with
              | none => none
              | some (isPm, s4) =>
                  match readMonthName (skipSpaces s4) with
                  | none => none
                  | some (mo, s5) =>
                      match readDigits12 (skipSpaces s5) with
                      | none => none
                      | some (day, s6) =>
                          if s6 = [] ∧ 1 ≤ h12 ∧ h12 ≤ 12 ∧ mi ≤ 59 ∧
                              1 ≤ day ∧ day ≤ daysInMonth 1900 mo then
                            some ⟨1900, mo, day,
                              (if isPm then h12 % 12 + 12 else h12 % 12), mi⟩
                          else none

/-- Modelled from the spec: the external fuzzy parser on the canonical
`YYYY-MM-DD HH:MM:SS` string form of a datetime (all values this
program renders have zero seconds, so only those are accepted; a
datetime carries no seconds field here). -/
def parseIsoDateTime (s : List Char) : Option DT :=
  match readExactDigits 4 s with
  | none => none
  | some (y, s1) =>
      match expectChar '-' s1 with
      | none => none
      | some s2 =>
          match readExactDigits 2 s2 with
          | none => none
          | some (mo, s3) =>
              match expectChar '-' s3 with
              | none => none
              | some s4 =>
                  match readExactDigits 2 s4 with
                  | none => none
                  | some (day, s5) =>
                      match expectChar ' ' s5 with
                      | none => none
                      | some s6 =>
                          match readExactDigits 2 s6 with
                          | none => none
                          | some (h, s7) =>
                              match expectChar ':' s7 with
                              | none => none
                              | some s8 =>
                                  match readExactDigits 2 s8 with
                                  | none => none
                                  | some (mi, s9) =>
                                      match expectChar ':' s9 with
                                      | none => none
                                      | some s10 =>
                                          match readExactDigits 2 s10 with
                                          | none => none
                                          | some (sec, s11) =>
                                              if s11 = [] ∧ 1 ≤ y ∧ 1 ≤ mo ∧ mo ≤ 12 ∧
                                                  1 ≤ day ∧ day ≤ daysInMonth y mo ∧
                                                  h ≤ 23 ∧ mi ≤ 59 ∧ sec = 0 then
                                                some ⟨y, mo, day, h, mi⟩
                                              else none

/-- Modelled from the spec: `dateutil.parser.parse(s, fuzzy=True)` as
used by the Normalizer — accepts the two text shapes the program feeds
it (the reordered scraped form and its own canonical string form). -/
def fuzzyParse (s : String) : Option DT :=
  match parseTimeMonthDay s.toList with
  | some d => some d
  | none => parseIsoDateTime s.toList

/-- Python `datetime.replace(year=y)`: validates the year range
(`MINYEAR..MAXYEAR`) and that the date stays valid; a failure raises
`ValueError`, which `parse_wib_datetime` turns into `None`. -/
def replaceYearChecked (d : DT) (y : Nat) : Option DT :=
  if 1 ≤ y ∧ y ≤ 9999 ∧ d.day ≤ daysInMonth y d.month then some { d with year := y }
  else none

/-- `parse_wib_datetime`: strip the WIB markers, normalize whitespace,
fuzzy-parse, and overwrite an implausible (parser-defaulted) year with
the supplied default. -/
def parse_wib_datetime (s : String) (year : Nat := 2026) : Option DT :=
  if s = "" ∨ s = "-" then none
  else
    let t1 := strStrip (strReplace (strReplace s "WIB," "") "WIB" "")
    let t2 := (collapseWs t1.toList).asString
    match fuzzyParse t2 with
    | none => none
    | some d =>
        if d.year = 1900 ∨ d.year < 2020 then replaceYearChecked d year else some d

/-! ## Scraped-element models

BeautifulSoup DOM queries cannot be embedded directly; an anchor (or
tournament link) is modelled by the texts the source reads off it.
`strips` is the list of DOM text fragments of the element, from which
`get_text(separator=sep, strip=True)` builds the flattened text. -/

structure Anchor where
  href : String
  bracketNames : List String
  scoreLeft : Option String
  scoreRight : Option String
  sidebarNames : List String
  strips : List String
  hasRoundParent : Bool
  phaseHeading : Option String
  deriving Repr, DecidableEq

structure TLink where
  href : String
  datesText : Option String
  deriving Repr, DecidableEq

/-! ## Tournament Directory Fetcher (`get_tournaments`) -/

/-- `extract_tournament_name`: slug to title-cased display name with
acronym fixups. -/
def extract_tournament_name (slug : String) : String :=
  if slug = "" then ""
  else
    let name := (pyTitle ((slug.toList.map fun c => if c = '-' then ' ' else c))).asString
    strReplace (strReplace name "Vct" "VCT") "Emea" "EMEA"

/-- Region inference: first case-insensitive substring hit in the fixed
region list, empty when none match. -/
def regionFor (name : String) : String :=
  match ["Americas", "EMEA", "Pacific", "China"].find?
      (fun r => strContains (strLower name) (strLower r)) with
  | some r => r
  | none => ""

/-- The per-link body of the `get_tournaments` loop: `none` exactly when
the link is skipped (wrong path shape, empty name, excluded region). -/
def linkToTournament (excluded : List String) (l : TLink) : Option Tournament :=
  if ¬ strStartsWith l.href "/event/" then none
  else
    let parts := (pySplit l.href.toList "/".toList).map List.asString
    if parts.length < 3 then none
    else
      let event_id := parts.getD 2 ""
      let slug := if parts.length > 3 then parts.getD 3 "" else ""
      let name := extract_tournament_name slug
      if name = "" then none
      else
        let region := regionFor name
        if region ∈ excluded then none
        else
          some { event_id := event_id, name := name, slug := slug, region := region
                 dates := (match l.datesText with | some t => strStrip t | none => "")
                 url := urljoinModel BASE_URL l.href }

def tournamentsLoop (excluded : List String) : List TLink → List Tournament → List Tournament
  | [], acc => acc
  | l :: ls, acc =>
      match linkToTournament excluded l with
      | none => tournamentsLoop excluded ls acc
      | some t =>
          if acc.any (fun t0 => t0.event_id = t.event_id) then tournamentsLoop excluded ls acc
          else tournamentsLoop excluded ls (acc ++ [t])

/-- `get_tournaments` over the candidate links of the listing page
(network fetch elided; the exclusion list is the configuration value). -/
def get_tournaments (excluded : List String) (links : List TLink) : List Tournament :=
  tournamentsLoop excluded links []

/-! ## Team/score extraction (`extract_match_teams`) -/

/-- `re.match(r"^[\d:\s]+[ap]m$", part, re.I)`: since `a`, `p`, `m` are
not in the leading class, the pattern matches exactly the strings whose
last two characters are a meridiem and whose non-empty remainder is all
digits, colons and whitespace. -/
def isTimeToken (s : List Char) : Bool :=
  match s.reverse with
  | m :: ap :: rest =>
      m.toLower = 'm' && (ap.toLower = 'a' || ap.toLower = 'p') && !rest.isEmpty &&
        rest.all (fun c => c.isDigit || c = ':' || isPySpace c)
  | _ => false

def monthKeywords : List String :=
  ["Jan", "Feb", "Mar", "Apr", "May", "Jun", "Jul", "Aug", "Sep", "Oct", "Nov", "Dec"]

/-- `re.match(r"^(Jan|Feb|...|Dec)\b", part)` — case sensitive, word
boundary after the three-letter month. -/
def startsWithMonthWord (s : List Char) : Bool :=
  monthKeywords.any fun mn =>
    mn.toList.isPrefixOf s &&
      (match s.drop 3 with
       | [] => true
       | c :: _ => !isWordChar c)

/-- `re.match(r"^(Round|Upper|Lower|Middle|Grand|Final|Bo\\d+)$", part, re.I)`.
The source's doubled backslash makes the last alternative the literal
`Bo\` followed by one or more letters `d` (case-insensitively), not a
numeral; embedded faithfully. -/
def isRoundKeyword (s : List Char) : Bool :=
  let ls := pyLower s
  ls == "round".toList || ls == "upper".toList || ls == "lower".toList ||
    ls == "middle".toList || ls == "grand".toList || ls == "final".toList ||
    (ls.take 3 == ['b', 'o', '\\'] && !(ls.drop 3).isEmpty && (ls.drop 3).all (· = 'd'))

/-- A `.score-left` / `.score-right` element's stripped text, kept only
when it `isdigit()`. -/
def scoreOf : Option String → Option String
  | none => none
  | some t =>
      let t := strStrip t
      if pyIsDigit t.toList then some t else none

/-- `extract_match_teams`: bracket-card names/scores, then sidebar
names, then the generic text-split fallback.  The fallback never
assigns scores. -/
def extract_match_teams (a : Anchor) : String × String × Option String × Option String :=
  let bnames := (a.bracketNames.map strStrip).filter (· ≠ "")
  if bnames.length ≥ 2 then
    (bnames.getD 0 "", bnames.getD 1 "", scoreOf a.scoreLeft, scoreOf a.scoreRight)
  else
    let snames := (a.sidebarNames.map strStrip).filter (· ≠ "")
    if snames.length ≥ 2 then (snames.getD 0 "", snames.getD 1 "", none, none)
    else
      let link_text := getTextWith "|" a.strips
      let parts := ((pySplit link_text.toList "|".toList).map pyStrip).filter (· ≠ [])
      let cands := parts.filter fun p =>
        !isTimeToken p && !startsWithMonthWord p && !isRoundKeyword p &&
          p ≠ "-".toList && p ≠ "WIB".toList && p.length > 1 && !pyIsDigit p
      if cands.length ≥ 2 then ((cands.getD 0 []).asString, (cands.getD 1 []).asString, none, none)
      else if cands.length = 1 then ((cands.getD 0 []).asString, "TBD", none, none)
      else ("TBD", "TBD", none, none)

/-! ## Date-text extraction (`extract_match_datetime_str`)

The two `re.search` patterns are embedded with small backtracking
combinators over `List Char`.  A component maps a suffix to the list of
lengths it can consume, in the engine's backtracking priority order
(greedy pieces longest first, lazy pieces shortest first); sequencing
concatenates alternatives lexicographically, exactly the order in which
the `re` engine explores them. -/

/-- `[hi, hi-1, ..., lo]` (empty when `hi < lo`). -/
def descRange (lo hi : Nat) : List Nat :=
  (List.range (hi + 1 - lo)).map (fun i => hi - i)

/-- Greedy bounded repetition of a one-character class. -/
def repAlts (p : Char → Bool) (lo : Nat) (hi : Option Nat) (s : List Char) : List Nat :=
  let run := (s.takeWhile p).length
  descRange lo (match hi with | some h => min h run | none => run)

/-- One character from a class. -/
def clsAlts (p : Char → Bool) : List Char → List Nat
  | [] => []
  | c :: _ => if p c then [1] else []

/-- A case-insensitive literal. -/
def litCIAlts (t : List Char) (s : List Char) : List Nat :=
  if (t.map Char.toLower).isPrefixOf (s.map Char.toLower) then [t.length] else []

/-- An optional literal character (greedy: present first). -/
def optCharAlts (c : Char) : List Char → List Nat
  | [] => [0]
  | x :: _ => if x = c then [1, 0] else [0]

def seqA (f g : List Char → List Nat) (s : List Char) : List Nat :=
  (f s).flatMap fun n => (g (s.drop n)).map (n + ·)

/-- `r"(\d{1,2}:\d{2}\s*[ap]m\s*WIB,?\s*\w+\s*\d{1,2})"` with `re.I`
(group 1 is the whole match). -/
def wibPatternAlts : List Char → List Nat :=
  seqA (repAlts Char.isDigit 1 (some 2)) <|
    seqA (litCIAlts [':']) <|
      seqA (repAlts Char.isDigit 2 (some 2)) <|
        seqA (repAlts isPySpace 0 none) <|
          seqA (clsAlts fun c => c.toLower = 'a' || c.toLower = 'p') <|
            seqA (litCIAlts ['m']) <|
              seqA (repAlts isPySpace 0 none) <|
                seqA (litCIAlts ['w', 'i', 'b']) <|
                  seqA (optCharAlts ',') <|
                    seqA (repAlts isPySpace 0 none) <|
                      seqA (repAlts isWordChar 1 none) <|
                        seqA (repAlts isPySpace 0 none) (repAlts Char.isDigit 1 (some 2))

/-- Leftmost search: first start position with a match, first
alternative there; yields the matched text. -/
def searchMatch (f : List Char → List Nat) : List Char → Option (List Char)
  | [] => match f [] with
          | n :: _ => some (([] : List Char).take n)
          | [] => none
  | s@(_ :: t) =>
      match f s with
      | n :: _ => some (s.take n)
      | [] => searchMatch f t

/-- `(?:Jan|Feb|...|Dec)` case-insensitively (the alternatives all have
length three and are mutually exclusive at any position). -/
def monthAltsCI (s : List Char) : List Nat :=
  if monthKeywords.any (fun mn => (mn.toList.map Char.toLower).isPrefixOf (s.map Char.toLower))
  then [3] else []

/-- `(Jan|...|Dec)\s+\d{1,2}` — group 1 of the compact pattern. -/
def monthDayAlts : List Char → List Nat :=
  seqA monthAltsCI <| seqA (repAlts isPySpace 1 none) (repAlts Char.isDigit 1 (some 2))

/-- `\d{1,2}:\d{2}\s*[ap]m` — group 2 of the compact pattern. -/
def timeAlts : List Char → List Nat :=
  seqA (repAlts Char.isDigit 1 (some 2)) <|
    seqA (litCIAlts [':']) <|
      seqA (repAlts Char.isDigit 2 (some 2)) <|
        seqA (repAlts isPySpace 0 none) <|
          seqA (clsAlts fun c => c.toLower = 'a' || c.toLower = 'p') (litCIAlts ['m'])

def wordAt (s : List Char) (i : Nat) : Bool :=
  match s.drop i with
  | c :: _ => isWordChar c
  | [] => false

/-- Regex `\b` at position `i` of `s`. -/
def boundaryAt (s : List Char) (i : Nat) : Bool :=
  (decide (i ≠ 0) && wordAt s (i - 1)) != wordAt s i

def firstSome {α β : Type} (f : α → Option β) : List α → Option β
  | [] => none
  | a :: as =>
      match f a with
      | some b => some b
      | none => firstSome f as

/-- The lazy gap `.*?` between the two groups: shortest first, `.` does
not cross a newline. -/
def gapLengths (s : List Char) (from_ len : Nat) : List Nat :=
  (List.range (len + 1)).filter fun g => ((s.drop from_).take g).all (· ≠ '\n')

/-- `re.search(r"\b((?:Jan|...|Dec)\s+\d{1,2})\b.*?\b(\d{1,2}:\d{2}\s*[ap]m)\b", compact, re.I)`,
returning the two group texts in backtracking priority order. -/
def compactSearchAt (s : List Char) (i : Nat) : Option (List Char × List Char) :=
  if boundaryAt s i then
    firstSome
      (fun md =>
        if boundaryAt s (i + md) then
          firstSome
            (fun g =>
              if boundaryAt s (i + md + g) then
                firstSome
                  (fun t =>
                    if boundaryAt s (i + md + g + t) then
                      some ((s.drop i).take md, (s.drop (i + md + g)).take t)
                    else none)
                  (timeAlts (s.drop (i + md + g)))
              else none)
            (gapLengths s (i + md) (s.length - (i + md)))
        else none)
      (monthDayAlts (s.drop i))
  else none

def compactSearchFrom (s : List Char) : Nat → Nat → Option (List Char × List Char)
  | 0, _ => none
  | fuel + 1, i =>
      match compactSearchAt s i with
      | some r => some r
      | none => if i < s.length then compactSearchFrom s fuel (i + 1) else none

def compactSearch (s : List Char) : Option (List Char × List Char) :=
  compactSearchFrom s (s.length + 1) 0

/-- `extract_match_datetime_str`: the explicit WIB pattern first, then
the compact event-card pattern with the tokens reordered to
`"<time> <month> <day>"`. -/
def extract_match_datetime_str (link_text : String) : String :=
  if link_text = "" then ""
  else
    match searchMatch wibPatternAlts link_text.toList with
    | some m => m.asString
    | none =>
        let compact := pyStrip (collapseWs link_text.toList)
        match compactSearch compact with
        | some (monthDay, time) => (time ++ ' ' :: monthDay).asString
        | none => ""

/-! ## Match Extraction Engine (`get_matches_from_tournament`) -/

/-- The URL suffix-code table, in the priority order of the source's
`if`/`elif` chain.  The source tests each code with substring
containment (`code in href.lower()`), not with an `endswith` check. -/
def urlPhaseCodes : List (String × String) :=
  [("-ur1", "Upper Round 1"), ("-ur2", "Upper Round 2"), ("-ur3", "Upper Round 3"),
   ("-ubf", "Upper Final"),
   ("-mr1", "Middle Round 1"), ("-mr2", "Middle Round 2"), ("-mr3", "Middle Round 3"),
   ("-mr4", "Middle Round 4"), ("-mbf", "Middle Final"),
   ("-lr1", "Lower Round 1"), ("-lr2", "Lower Round 2"), ("-lr3", "Lower Round 3"),
   ("-lr4", "Lower Round 4"), ("-lr5", "Lower Round 5"), ("-lbf", "Lower Final"),
   ("-gf", "Grand Final")]

def phaseFromUrl (href : String) : String :=
  match urlPhaseCodes.find? (fun p => strContains (strLower href) p.1) with
  | some p => p.2
  | none => ""

/-- `phase_from_url or current_phase or "Match"` (Python `or` on strings:
the empty string is falsy). -/
def resolvePhase (fromUrl cur : String) : String :=
  if fromUrl ≠ "" then fromUrl else if cur ≠ "" then cur else "Match"

/-- The running-phase update: when the anchor sits in a `round`-classed
parent and a preceding heading matches the phase-keyword pattern, the
heading's stripped text becomes the current phase. -/
def headingUpdate (cur : String) (a : Anchor) : String :=
  if a.hasRoundParent then
    match a.phaseHeading with
    | some h => strStrip h
    | none => cur
  else cur

/-- The phase label the engine resolves for one anchor given the running
phase carried from the previous anchors. -/
def resolvedPhaseFor (cur : String) (a : Anchor) : String :=
  resolvePhase (phaseFromUrl a.href) (headingUpdate cur a)

/-- `re.search(r"/(\d{5,7})/", href)` at one position: a slash, then
greedily seven, six or five digits, then a slash. -/
def matchIdHere : List Char → Option (List Char)
  | '/' :: rest =>
      let ds := rest.takeWhile Char.isDigit
      let tryK : Nat → Option (List Char) := fun k =>
        if k ≤ ds.length ∧ (rest.drop k).head? = some '/' then some (rest.take k) else none
      ((tryK 7).orElse fun _ => (tryK 6).orElse fun _ => tryK 5)
  | _ => none

def searchMatchId : List Char → Option (List Char)
  | [] => none
  | s@(_ :: t) =>
      match matchIdHere s with
      | some d => some d
      | none => searchMatchId t

/-- The 5-to-7-digit numeric match id from an anchor path, when present. -/
def extract_match_id (href : String) : Option String :=
  (searchMatchId href.toList).map List.asString

/-- The body of the per-anchor loop of `get_matches_from_tournament`:
threads the running phase and the accumulated (id-deduplicated) match
list. -/
def stepAnchor (tname : String) (st : String × List Match) (a : Anchor) : String × List Match :=
  match extract_match_id a.href with
  | none => st
  | some mid =>
      let cur := headingUpdate st.1 a
      let phase := resolvedPhaseFor st.1 a
      let tsss := extract_match_teams a
      let dstr := extract_match_datetime_str (getTextWith " " a.strips)
      let m : Match :=
        { match_id := mid
          event_name := tname
          tournament_phase := phase
          team1 := if tsss.1 ≠ "" then tsss.1 else "TBD"
          team2 := if tsss.2.1 ≠ "" then tsss.2.1 else "TBD"
          datetime_wib := parse_wib_datetime dstr
          datetime_str := dstr
          match_url := urljoinModel BASE_URL a.href
          score1 := tsss.2.2.1
          score2 := tsss.2.2.2 }
      if st.2.any (fun m0 => m0.match_id = mid) then (cur, st.2)
      else (cur, st.2 ++ [m])

/-- `get_matches_from_tournament` over the selected anchors of the
tournament page (selector cascade and network fetch elided; every
selected anchor flows through the same per-anchor loop). -/
def get_matches_from_tournament (tname : String) (anchors : List Anchor) : List Match :=
  (anchors.foldl (stepAnchor tname) ("", [])).2

/-! ## Claim C1: confirmation status of a calendar entry -/

/-- A score field as the extraction layer produces it: absent, or a
non-empty all-digit string (`isdigit()`-checked text). -/
def digitScore : Option String → Bool
  | none => true
  | some s => s ≠ "" && s.toList.all Char.isDigit

theorem optTruthy_eq_isSome_of_digitScore (o : Option String) (h : digitScore o = true) :
    optTruthy o = o.isSome := by
  cases o with
  | none => rfl
  | some s =>
      simp only [digitScore, Bool.and_eq_true, decide_eq_true_eq] at h
      simp [optTruthy, h.1]

/-- C1: the calendar entry produced for a match record has CONFIRMED
status exactly when both score strings are present (each a non-negative
integer in text form, including "0"), and TENTATIVE otherwise. -/
theorem c1_confirmed_iff_both_scores (now : Nat) (m : Match) (e : Event)
    (he : match_to_event now m = some e)
    (h1 : digitScore m.score1 = true) (h2 : digitScore m.score2 = true) :
    e.status = (if m.score1.isSome ∧ m.score2.isSome then "CONFIRMED" else "TENTATIVE") := by
  unfold match_to_event at he
  cases hd : m.datetime_wib with
  | none => rw [hd] at he; exact absurd he (by simp)
  | some d =>
      rw [hd] at he
      simp only [Option.some.injEq] at he
      subst he
      simp only [optTruthy_eq_isSome_of_digitScore _ h1, optTruthy_eq_isSome_of_digitScore _ h2]
      by_cases hs1 : m.score1.isSome <;> by_cases hs2 : m.score2.isSome <;>
        simp [hs1, hs2]

/-- Witness for C1 at a concrete record: scores "13" and "7" give
CONFIRMED (and the score-absent variant of the same record gives
TENTATIVE, via the same theorem). -/
theorem c1_confirmed_iff_both_scores_witness :
    (match_to_event 5
        { match_id := "100001", event_name := "E", tournament_phase := "Match",
          team1 := "A", team2 := "B", datetime_wib := some ⟨2026, 1, 20, 23, 0⟩,
          datetime_str := "", match_url := "u", score1 := some "13", score2 := some "7" } =
      some
        { name := "VEVENT", uid := "match-100001@vlr.gg", summary := "E - A vs B (Match)",
          dtstart := some (DT.toMinutes ⟨2026, 1, 20, 16, 0⟩),
          dtend := some (DT.toMinutes ⟨2026, 1, 20, 16, 0⟩ + 120), status := "CONFIRMED",
          description := "Watch: u", url := "u", dtstamp := 5 }) ∧
    ({ name := "VEVENT", uid := "match-100001@vlr.gg", summary := "E - A vs B (Match)",
       dtstart := some (DT.toMinutes ⟨2026, 1, 20, 16, 0⟩),
       dtend := some (DT.toMinutes ⟨2026, 1, 20, 16, 0⟩ + 120), status := "CONFIRMED",
       description := "Watch: u", url := "u", dtstamp := 5 } : Event).status =
      (if (some "13" : Option String).isSome ∧ (some "7" : Option String).isSome then "CONFIRMED"
       else "TENTATIVE") :=
  ⟨by decide,
   c1_confirmed_iff_both_scores 5
     { match_id := "100001", event_name := "E", tournament_phase := "Match",
       team1 := "A", team2 := "B", datetime_wib := some ⟨2026, 1, 20, 23, 0⟩,
       datetime_str := "", match_url := "u", score1 := some "13", score2 := some "7" }
     _ (by decide) (by decide) (by decide)⟩

/-! ## Claim C3: the normalizer example and its UTC rendering -/

/-- A record carrying the spec's example raw text, normalized by the
code's own Normalizer. -/
def c3Record : Match :=
  { match_id := "100002", event_name := "E", tournament_phase := "Match",
    team1 := "A", team2 := "B",
    datetime_wib := parse_wib_datetime "11:00 pm WIB, Jan 20" 2026,
    datetime_str := "11:00 pm WIB, Jan 20", match_url := "u" }

/-- C3: `"11:00 pm WIB, Jan 20"` with default year 2026 normalizes to
2026-01-20 23:00 WIB, and the calendar entry rendered from such a
record starts at 2026-01-20 16:00 UTC. -/
theorem c3_example_parse_and_utc_start :
    parse_wib_datetime "11:00 pm WIB, Jan 20" 2026 = some ⟨2026, 1, 20, 23, 0⟩ ∧
    ∀ now : Nat,
      (match_to_event now c3Record).map Event.dtstart =
        some (some (DT.toMinutes ⟨2026, 1, 20, 16, 0⟩)) := by
  refine ⟨by decide, fun now => ?_⟩
  show some (some (DT.toMinutes ⟨2026, 1, 20, 23, 0⟩ - wibOffsetMinutes)) = _
  decide

/-! ## Claim C2: phase resolution by URL code -/

theorem charsContains_append_self (pat xs : List Char) :
    charsContains pat (xs ++ pat) = true := by
  induction xs with
  | nil =>
      cases pat with
      | nil => rfl
      | cons c t =>
          simp only [List.nil_append, charsContains, Bool.or_eq_true]
          exact Or.inl (List.isPrefixOf_iff_prefix.mpr (List.prefix_refl _))
  | cons x xs ih =>
      simp only [List.cons_append, charsContains, Bool.or_eq_true]
      exact Or.inr ih

theorem charsContains_of_charsEndsWith (pat s : List Char)
    (h : charsEndsWith pat s = true) : charsContains pat s = true := by
  simp only [charsEndsWith, Bool.and_eq_true, decide_eq_true_eq] at h
  have hs : s.take (s.length - pat.length) ++ pat = s := by
    conv_rhs => rw [← List.take_append_drop (s.length - pat.length) s]
    rw [h.2]
  calc charsContains pat s
      = charsContains pat (s.take (s.length - pat.length) ++ pat) := by rw [hs]
    _ = true := charsContains_append_self _ _

theorem strContains_of_strEndsWith (s pat : String)
    (h : strEndsWith s pat = true) : strContains s pat = true :=
  charsContains_of_charsEndsWith pat.toList s.toList h

/-- C2 as stated is false on the code: phase codes are matched by
substring containment in priority order, so an anchor path ending in
`-gf` that also contains an earlier code resolves to that earlier
phase.  Concretely, `/123456/x-ur1-gf` ends in `-gf` yet resolves to
"Upper Round 1". -/
theorem c2_counterexample :
    strEndsWith (strLower "/123456/x-ur1-gf") "-gf" = true ∧
    resolvedPhaseFor ""
        { href := "/123456/x-ur1-gf", bracketNames := [], scoreLeft := none,
          scoreRight := none, sidebarNames := [], strips := [],
          hasRoundParent := false, phaseHeading := none } ≠ "Grand Final" := by
  decide

/-- C2 (amended): URL phase codes are matched by substring containment
in a fixed priority order.  An anchor whose (lowercased) path ends in
`-gf` and contains none of the sixteen earlier-priority codes resolves
to "Grand Final" regardless of any preceding heading or running phase;
an anchor with no URL code, no matching preceding heading, and no
running phase resolves to exactly "Match". -/
theorem c2_amended_phase_resolution :
    (∀ (a : Anchor) (cur : String),
        strEndsWith (strLower a.href) "-gf" = true →
        (∀ p ∈ urlPhaseCodes.dropLast, strContains (strLower a.href) p.1 = false) →
        resolvedPhaseFor cur a = "Grand Final") ∧
    (∀ a : Anchor,
        phaseFromUrl a.href = "" →
        (a.hasRoundParent = false ∨ a.phaseHeading = none) →
        resolvedPhaseFor "" a = "Match") := by
  constructor
  · intro a cur hsuf hnone
    have hgf : strContains (strLower a.href) "-gf" = true :=
      strContains_of_strEndsWith _ _ hsuf
    have hfu : phaseFromUrl a.href = "Grand Final" := by
      unfold phaseFromUrl
      have h01 := hnone ("-ur1", "Upper Round 1") (by decide)
      have h02 := hnone ("-ur2", "Upper Round 2") (by decide)
      have h03 := hnone ("-ur3", "Upper Round 3") (by decide)
      have h04 := hnone ("-ubf", "Upper Final") (by decide)
      have h05 := hnone ("-mr1", "Middle Round 1") (by decide)
      have h06 := hnone ("-mr2", "Middle Round 2") (by decide)
      have h07 := hnone ("-mr3", "Middle Round 3") (by decide)
      have h08 := hnone ("-mr4", "Middle Round 4") (by decide)
      have h09 := hnone ("-mbf", "Middle Final") (by decide)
      have h10 := hnone ("-lr1", "Lower Round 1") (by decide)
      have h11 := hnone ("-lr2", "Lower Round 2") (by decide)
      have h12 := hnone ("-lr3", "Lower Round 3") (by decide)
      have h13 := hnone ("-lr4", "Lower Round 4") (by decide)
      have h14 := hnone ("-lr5", "Lower Round 5") (by decide)
      have h15 := hnone ("-lbf", "Lower Final") (by decide)
      simp [urlPhaseCodes, List.find?, h01, h02, h03, h04, h05, h06, h07, h08,
        h09, h10, h11, h12, h13, h14, h15, hgf]
    unfold resolvedPhaseFor resolvePhase
    rw [hfu]
    simp
  · intro a hfu hhead
    have hcur : headingUpdate "" a = "" := by
      unfold headingUpdate
      rcases hhead with h | h
      · rw [h]; simp
      · rw [h]; cases a.hasRoundParent <;> simp
    unfold resolvedPhaseFor resolvePhase
    rw [hfu, hcur]
    simp

/-- Witness for the amended C2: a `-gf` path wins over both a heading
and a running phase saying "Upper Round 1", and a signal-free anchor
resolves to "Match". -/
theorem c2_amended_phase_resolution_witness :
    resolvedPhaseFor "Upper Round 1"
        { href := "/123456/final-gf", bracketNames := [], scoreLeft := none,
          scoreRight := none, sidebarNames := [], strips := [],
          hasRoundParent := true, phaseHeading := some "Upper Round 1" } = "Grand Final" ∧
    resolvedPhaseFor ""
        { href := "/123456/a-vs-b", bracketNames := [], scoreLeft := none,
          scoreRight := none, sidebarNames := [], strips := [],
          hasRoundParent := false, phaseHeading := none } = "Match" :=
  ⟨c2_amended_phase_resolution.1 _ "Upper Round 1" (by decide) (by decide),
   c2_amended_phase_resolution.2 _ (by decide) (Or.inl rfl)⟩

/-! ## Claim C4: trailing digits in the generic fallback -/

/-- C4 as stated is false on this code: in the generic fallback, a
token carrying a trailing single digit is kept whole as a team name and
no score is assigned.  The flattened text `"Team Liquid 2|Fnatic 1"`
yields team names with the digits still attached and both scores
absent (the claim would require score-one "2" and score-two "1"). -/
theorem c4_counterexample :
    (get_matches_from_tournament "E"
        [{ href := "/123456/x", bracketNames := [], scoreLeft := none, scoreRight := none,
           sidebarNames := [], strips := ["Team Liquid 2", "Fnatic 1"],
           hasRoundParent := false, phaseHeading := none }]).map
        (fun m => (m.team1, m.team2, m.score1, m.score2)) =
      [("Team Liquid 2", "Fnatic 1", none, none)] := by
  decide

/-- C4 (amended): whenever the bracket-card strategy does not apply
(fewer than two bracket team names), `extract_match_teams` returns no
scores at all — in particular the generic fallback never turns a
trailing digit into a score; trailing digits stay part of the team
token. -/
theorem c4_amended_fallback_never_scores (a : Anchor)
    (h : ((a.bracketNames.map strStrip).filter (· ≠ "")).length < 2) :
    (extract_match_teams a).2.2.1 = none ∧ (extract_match_teams a).2.2.2 = none := by
  unfold extract_match_teams
  rw [if_neg (by omega)]
  dsimp only
  split
  · exact ⟨rfl, rfl⟩
  · split
    · exact ⟨rfl, rfl⟩
    · split
      · exact ⟨rfl, rfl⟩
      · exact ⟨rfl, rfl⟩

/-- Witness for the amended C4 at the counterexample anchor. -/
theorem c4_amended_fallback_never_scores_witness :
    (extract_match_teams
        { href := "/123456/x", bracketNames := [], scoreLeft := none, scoreRight := none,
          sidebarNames := [], strips := ["Team Liquid 2", "Fnatic 1"],
          hasRoundParent := false, phaseHeading := none }).2.2.1 = none ∧
    (extract_match_teams
        { href := "/123456/x", bracketNames := [], scoreLeft := none, scoreRight := none,
          sidebarNames := [], strips := ["Team Liquid 2", "Fnatic 1"],
          hasRoundParent := false, phaseHeading := none }).2.2.2 = none :=
  c4_amended_fallback_never_scores _ (by decide)

/-! ## Append-mode lemmas (claims C6 and C10) -/

/-- The events one `append_to_calendar` pass adds: the existing-UID set
is computed before the loop and never extended during it. -/
def newEvents (now : Nat) (existing : List String) (ms : List Match) : List Event :=
  ms.filterMap fun m => if m.uid ∈ existing then none else match_to_event now m

theorem appendLoop_eq (now : Nat) (existing : List String) :
    ∀ (ms : List Match) (cal : List Event),
      appendLoop now existing ms cal = cal ++ newEvents now existing ms
  | [], cal => by simp [appendLoop, newEvents]
  | m :: ms, cal => by
      unfold appendLoop newEvents
      by_cases hmem : m.uid ∈ existing
      · rw [if_pos hmem, List.filterMap_cons, if_pos hmem]
        exact appendLoop_eq now existing ms cal
      · rw [if_neg hmem, List.filterMap_cons, if_neg hmem]
        cases he : match_to_event now m with
        | none => exact appendLoop_eq now existing ms cal
        | some e =>
            dsimp only
            rw [appendLoop_eq now existing ms (cal ++ [e]), List.append_assoc]
            rfl

theorem match_to_event_name_uid (now : Nat) (m : Match) (e : Event)
    (h : match_to_event now m = some e) : e.name = "VEVENT" ∧ e.uid = m.uid := by
  unfold match_to_event at h
  cases hd : m.datetime_wib with
  | none => rw [hd] at h; exact absurd h (by simp)
  | some d =>
      rw [hd] at h
      simp only [Option.some.injEq] at h
      subst h
      exact ⟨rfl, rfl⟩

theorem match_to_event_eq_none_iff (now : Nat) (m : Match) :
    match_to_event now m = none ↔ m.datetime_wib = none := by
  cases hd : m.datetime_wib <;> simp [match_to_event, hd]

theorem Match.uid_ne_empty (m : Match) : m.uid ≠ "" := by
  intro h
  have hl := congrArg String.length h
  rw [Match.uid] at hl
  simp [String.length_append] at hl
  exact absurd hl.1.1 (by decide)

/-- C6: append mode is idempotent — appending the same match list twice
yields the same calendar document as appending it once; the second pass
adds zero entries and modifies none. -/
theorem c6_append_idempotent (now1 now2 : Nat) (ms : List Match) (cal : List Event) :
    append_to_calendar now2 ms (append_to_calendar now1 ms cal) =
      append_to_calendar now1 ms cal := by
  unfold append_to_calendar
  rw [appendLoop_eq, appendLoop_eq]
  suffices h :
      newEvents now2 (collectUids (cal ++ newEvents now1 (collectUids cal) ms)) ms = [] by
    rw [h, List.append_nil]
  rw [newEvents, List.filterMap_eq_nil_iff]
  intro m hm
  by_cases hmem : m.uid ∈ collectUids (cal ++ newEvents now1 (collectUids cal) ms)
  · rw [if_pos hmem]
  · rw [if_neg hmem]
    rw [collectUids, List.filterMap_append] at hmem
    rw [List.mem_append] at hmem
    push_neg at hmem
    have hnc : m.uid ∉ collectUids cal := hmem.1
    have hnn : m.uid ∉ collectUids (newEvents now1 (collectUids cal) ms) := hmem.2
    cases he : match_to_event now1 m with
    | some e =>
        exfalso
        apply hnn
        have hme : e ∈ newEvents now1 (collectUids cal) ms := by
          refine List.mem_filterMap.mpr ⟨m, hm, ?_⟩
          rw [if_neg hnc, he]
        obtain ⟨hname, huid⟩ := match_to_event_name_uid now1 m e he
        refine List.mem_filterMap.mpr ⟨e, hme, ?_⟩
        rw [if_pos ⟨hname, huid ▸ Match.uid_ne_empty m⟩, huid]
    | none =>
        rw [match_to_event_eq_none_iff] at he
        rw [match_to_event_eq_none_iff]
        exact he

/-- C10 (implicit in the code): append mode does not deduplicate within
the incoming batch — a match with a fresh UID appearing twice in the
incoming list, with a resolvable start time, is inserted twice. -/
theorem c10_append_no_batch_dedup (now : Nat) (cal : List Event) (m : Match)
    (h1 : m.uid ∉ collectUids cal) (h2 : m.datetime_wib.isSome = true) :
    (append_to_calendar now [m, m] cal).countP (fun e => e.uid == m.uid) =
      cal.countP (fun e => e.uid == m.uid) + 2 := by
  unfold append_to_calendar
  rw [appendLoop_eq, List.countP_append]
  cases he : match_to_event now m with
  | none =>
      rw [match_to_event_eq_none_iff] at he
      rw [he] at h2
      exact absurd h2 (by simp)
  | some e =>
      have huid := (match_to_event_name_uid now m e he).2
      have : newEvents now (collectUids cal) [m, m] = [e, e] := by
        simp [newEvents, List.filterMap_cons, if_neg h1, he]
      rw [this]
      simp [List.countP_cons, huid]

/-- Witness for C10: a concrete duplicated match against an empty
calendar yields two entries with its UID. -/
theorem c10_append_no_batch_dedup_witness :
    (append_to_calendar 0
        [{ match_id := "100003", event_name := "E", tournament_phase := "Match",
           team1 := "A", team2 := "B", datetime_wib := some ⟨2026, 1, 20, 23, 0⟩,
           datetime_str := "", match_url := "u" },
         { match_id := "100003", event_name := "E", tournament_phase := "Match",
           team1 := "A", team2 := "B", datetime_wib := some ⟨2026, 1, 20, 23, 0⟩,
           datetime_str := "", match_url := "u" }] []).countP
        (fun e => e.uid == Match.uid
          { match_id := "100003", event_name := "E", tournament_phase := "Match",
            team1 := "A", team2 := "B", datetime_wib := some ⟨2026, 1, 20, 23, 0⟩,
            datetime_str := "", match_url := "u" }) =
      ([] : List Event).countP
        (fun e => e.uid == Match.uid
          { match_id := "100003", event_name := "E", tournament_phase := "Match",
            team1 := "A", team2 := "B", datetime_wib := some ⟨2026, 1, 20, 23, 0⟩,
            datetime_str := "", match_url := "u" }) + 2 :=
  c10_append_no_batch_dedup 0 [] _ (by decide) (by decide)

/-! ## Claim C5: update-mode invariants -/

theorem applyUpdate_uid_name (now : Nat) (ne old : Event) :
    (applyUpdate now ne old).uid = old.uid ∧ (applyUpdate now ne old).name = old.name := by
  unfold applyUpdate
  split
  · exact ⟨rfl, rfl⟩
  · exact ⟨rfl, rfl⟩

theorem updateLast_forall2 (p : Event → Bool) (f : Event → Event)
    (hf : ∀ e, (f e).uid = e.uid ∧ (f e).name = e.name) :
    ∀ cal : List Event,
      List.Forall₂ (fun o n => n.uid = o.uid ∧ n.name = o.name ∧ (p o = false → n = o))
        cal (updateLast p f cal)
  | [] => List.Forall₂.nil
  | e :: es => by
      unfold updateLast
      by_cases ha : es.any p
      · rw [if_pos ha]
        exact List.Forall₂.cons ⟨rfl, rfl, fun _ => rfl⟩ (updateLast_forall2 p f hf es)
      · rw [if_neg ha]
        by_cases hp : p e
        · rw [if_pos hp]
          refine List.Forall₂.cons ⟨(hf e).1, (hf e).2, fun hpe => absurd hp (by rw [hpe]; simp)⟩ ?_
          exact List.forall₂_same.mpr fun a _ => ⟨rfl, rfl, fun _ => rfl⟩
        · rw [if_neg hp]
          exact List.forall₂_same.mpr fun a _ => ⟨rfl, rfl, fun _ => rfl⟩

theorem updateStep_forall2 (now : Nat) (cal : List Event) (m : Match) :
    List.Forall₂ (fun o n => n.uid = o.uid ∧ n.name = o.name ∧ (o.uid ≠ m.uid → n = o))
      cal (updateStep now cal m) := by
  have hrefl : List.Forall₂ (fun o n : Event => n.uid = o.uid ∧ n.name = o.name ∧ (o.uid ≠ m.uid → n = o)) cal cal :=
    List.forall₂_same.mpr fun a _ => ⟨rfl, rfl, fun _ => rfl⟩
  unfold updateStep
  split
  · split
    · exact hrefl
    · split
      · exact hrefl
      · refine List.Forall₂.imp ?_
          (updateLast_forall2 (fun e => e.name = "VEVENT" ∧ e.uid = m.uid)
            (applyUpdate now _) (fun e => applyUpdate_uid_name now _ e) cal)
        intro o n hr
        refine ⟨hr.1, hr.2.1, fun hne => hr.2.2 ?_⟩
        simp only [decide_eq_false_iff_not]
        intro hc
        exact hne hc.2
  · exact hrefl

theorem updateStep_no_time (now : Nat) (cal : List Event) (m : Match)
    (h : m.datetime_wib = none) : updateStep now cal m = cal := by
  unfold updateStep
  rw [h]
  split
  · rfl
  · rfl

/-- Compose two pointwise `Forall₂` relations along a middle list. -/
theorem forall2_glue {α : Type} {R S T : α → α → Prop}
    (h : ∀ a b c, R a b → S b c → T a c) :
    ∀ {l1 l2 l3 : List α}, List.Forall₂ R l1 l2 → List.Forall₂ S l2 l3 →
      List.Forall₂ T l1 l3 := by
  intro l1 l2 l3 h12 h23
  induction h12 generalizing l3 with
  | nil => cases h23; exact List.Forall₂.nil
  | cons hr _ ih =>
      cases h23 with
      | cons hs h23' => exact List.Forall₂.cons (h _ _ _ hr hs) (ih h23')

theorem update_calendar_forall2 (now : Nat) :
    ∀ (ms : List Match) (cal : List Event),
      List.Forall₂ (fun o n => n.uid = o.uid ∧ n.name = o.name ∧
        (o.uid ∉ ms.map Match.uid → n = o)) cal (update_calendar now cal ms)
  | [], cal => by
      unfold update_calendar
      exact List.forall₂_same.mpr fun a _ => ⟨rfl, rfl, fun _ => rfl⟩
  | m :: ms, cal => by
      have hstep := updateStep_forall2 now cal m
      have hrest := update_calendar_forall2 now ms (updateStep now cal m)
      have hgoal : update_calendar now cal (m :: ms) =
          update_calendar now (updateStep now cal m) ms := rfl
      rw [hgoal]
      refine forall2_glue ?_ hstep hrest
      intro a b c hr hs
      refine ⟨hs.1.trans hr.1, hs.2.1.trans hr.2.1, fun hnm => ?_⟩
      simp only [List.map_cons, List.mem_cons] at hnm
      push_neg at hnm
      have hba : b = a := hr.2.2 hnm.1
      have hcb : c = b := hs.2.2 (by rw [hr.1]; exact hnm.2)
      rw [hcb, hba]

theorem forall2_uid_map {l1 l2 : List Event}
    (h : List.Forall₂ (fun o n => n.uid = o.uid) l1 l2) :
    l2.map Event.uid = l1.map Event.uid := by
  induction h with
  | nil => rfl
  | cons hr _ ih => simp [ih, hr]

/-- C5: update mode leaves the UID list of the document unchanged (it
never adds or removes entries), leaves every entry whose UID is not the
derived UID of some incoming match untouched, and skips records with no
resolvable start time without modifying anything. -/
theorem c5_update_preserves_ids_and_others (now : Nat) (cal : List Event) (ms : List Match) :
    ((update_calendar now cal ms).map Event.uid = cal.map Event.uid) ∧
    List.Forall₂ (fun o n => o.uid ∉ ms.map Match.uid → n = o) cal (update_calendar now cal ms) ∧
    (∀ (ms1 : List Match) (m : Match) (ms2 : List Match), m.datetime_wib = none →
      update_calendar now cal (ms1 ++ m :: ms2) = update_calendar now cal (ms1 ++ ms2)) := by
  refine ⟨?_, ?_, ?_⟩
  · exact forall2_uid_map ((update_calendar_forall2 now ms cal).imp fun _ _ hr => hr.1)
  · exact (update_calendar_forall2 now ms cal).imp fun _ _ hr => hr.2.2
  · intro ms1 m ms2 hnone
    unfold update_calendar
    rw [List.foldl_append, List.foldl_append]
    show List.foldl (updateStep now) (updateStep now (List.foldl (updateStep now) cal ms1) m) ms2 = _
    rw [updateStep_no_time now _ m hnone]

/-- Witness for C5: a concrete calendar and batch — the UID list is
preserved, and inserting a record with no start time into the batch
changes nothing. -/
theorem c5_update_preserves_ids_and_others_witness :
    ((update_calendar 7
          [{ uid := "match-100004@vlr.gg", summary := "old" }]
          [{ match_id := "100004", event_name := "E", tournament_phase := "Match",
             team1 := "A", team2 := "B", datetime_wib := some ⟨2026, 1, 20, 23, 0⟩,
             datetime_str := "", match_url := "u" }]).map Event.uid =
        ([{ uid := "match-100004@vlr.gg", summary := "old" }] : List Event).map Event.uid) ∧
    (update_calendar 7 [{ uid := "match-100004@vlr.gg", summary := "old" }]
        ([] ++ { match_id := "100005", event_name := "E", tournament_phase := "Match",
                 team1 := "A", team2 := "B", datetime_wib := none,
                 datetime_str := "", match_url := "u" } :: []) =
      update_calendar 7 [{ uid := "match-100004@vlr.gg", summary := "old" }] ([] ++ [])) :=
  ⟨(c5_update_preserves_ids_and_others 7 _ _).1,
   (c5_update_preserves_ids_and_others 7 _ []).2.2 [] _ [] rfl⟩

/-! ## Claim C7: anchors with an id are represented, anchors without are skipped -/

theorem stepAnchor_snd_append (tname : String) (st : String × List Match) (a : Anchor) :
    ∃ tail, (stepAnchor tname st a).2 = st.2 ++ tail := by
  unfold stepAnchor
  cases extract_match_id a.href with
  | none => exact ⟨[], by simp⟩
  | some mid =>
      dsimp only
      split
      · exact ⟨[], by simp⟩
      · exact ⟨[_], rfl⟩

theorem engineFold_snd_append (tname : String) :
    ∀ (anchors : List Anchor) (st : String × List Match),
      ∃ tail, (anchors.foldl (stepAnchor tname) st).2 = st.2 ++ tail
  | [], st => ⟨[], by simp⟩
  | a :: as, st => by
      obtain ⟨t1, h1⟩ := stepAnchor_snd_append tname st a
      obtain ⟨t2, h2⟩ := engineFold_snd_append tname as (stepAnchor tname st a)
      exact ⟨t1 ++ t2, by rw [List.foldl_cons, h2, h1, List.append_assoc]⟩

theorem engineFold_mem_mono (tname : String) (anchors : List Anchor)
    (st : String × List Match) (m : Match) (hm : m ∈ st.2) :
    m ∈ (anchors.foldl (stepAnchor tname) st).2 := by
  obtain ⟨tail, ht⟩ := engineFold_snd_append tname anchors st
  rw [ht]
  exact List.mem_append_left _ hm

theorem engineFold_id_covered (tname : String) :
    ∀ (anchors : List Anchor) (st : String × List Match) (a : Anchor), a ∈ anchors →
      ∀ mid, extract_match_id a.href = some mid →
        ∃ m ∈ (anchors.foldl (stepAnchor tname) st).2, m.match_id = mid
  | [], _, _, ha, _, _ => absurd ha (List.not_mem_nil _)
  | b :: as, st, a, ha, mid, hid => by
      rw [List.foldl_cons]
      rcases List.mem_cons.mp ha with heq | htail
      · subst heq
        by_cases hdup : st.2.any (fun m0 => m0.match_id = mid)
        · obtain ⟨m, hm, hmid⟩ := by simpa using List.any_eq_true.mp hdup
          refine ⟨m, engineFold_mem_mono tname as _ m ?_, hmid⟩
          unfold stepAnchor
          rw [hid]
          dsimp only
          rw [if_pos hdup]
          exact hm
        · set mrec : Match :=
            { match_id := mid, event_name := tname,
              tournament_phase := resolvedPhaseFor st.1 a
              team1 := if (extract_match_teams a).1 ≠ "" then (extract_match_teams a).1 else "TBD"
              team2 := if (extract_match_teams a).2.1 ≠ "" then (extract_match_teams a).2.1 else "TBD"
              datetime_wib := parse_wib_datetime (extract_match_datetime_str (getTextWith " " a.strips))
              datetime_str := extract_match_datetime_str (getTextWith " " a.strips)
              match_url := urljoinModel BASE_URL a.href
              score1 := (extract_match_teams a).2.2.1
              score2 := (extract_match_teams a).2.2.2 } with hmrec
          refine ⟨mrec, engineFold_mem_mono tname as _ mrec ?_, rfl⟩
          unfold stepAnchor
          rw [hid]
          dsimp only
          rw [if_neg hdup]
          exact List.mem_append_right _ (List.mem_singleton.mpr rfl)
      · exact engineFold_id_covered tname as (stepAnchor tname st b) a htail mid hid

theorem stepAnchor_skip (tname : String) (st : String × List Match) (a : Anchor)
    (h : extract_match_id a.href = none) : stepAnchor tname st a = st := by
  unfold stepAnchor
  rw [h]

/-- C7: every selected anchor from whose path a 5-to-7-digit id can be
extracted is represented by a match record with that id in the output;
an anchor without such an id is silently skipped (removing it changes
nothing); and an anchor with an id but no phase, heading, team, score
or date signal yields exactly the documented default record. -/
theorem c7_id_anchors_emitted_idless_skipped :
    (∀ (tname : String) (anchors : List Anchor) (a : Anchor), a ∈ anchors →
      ∀ mid, extract_match_id a.href = some mid →
        ∃ m ∈ get_matches_from_tournament tname anchors, m.match_id = mid) ∧
    (∀ (tname : String) (pre post : List Anchor) (a : Anchor),
      extract_match_id a.href = none →
        get_matches_from_tournament tname (pre ++ a :: post) =
          get_matches_from_tournament tname (pre ++ post)) ∧
    (∀ tname href mid : String, extract_match_id href = some mid → phaseFromUrl href = "" →
      get_matches_from_tournament tname
          [{ href := href, bracketNames := [], scoreLeft := none, scoreRight := none,
             sidebarNames := [], strips := [], hasRoundParent := false, phaseHeading := none }] =
        [{ match_id := mid, event_name := tname, tournament_phase := "Match",
           team1 := "TBD", team2 := "TBD", datetime_wib := none, datetime_str := "",
           match_url := urljoinModel BASE_URL href, score1 := none, score2 := none }]) := by
  refine ⟨?_, ?_, ?_⟩
  · intro tname anchors a ha mid hid
    exact engineFold_id_covered tname anchors ("", []) a ha mid hid
  · intro tname pre post a hnone
    unfold get_matches_from_tournament
    rw [List.foldl_append, List.foldl_append, List.foldl_cons,
      stepAnchor_skip tname _ a hnone]
  · intro tname href mid hid hpfu
    unfold get_matches_from_tournament
    rw [List.foldl_cons, List.foldl_nil]
    unfold stepAnchor
    rw [hid]
    dsimp only
    rw [if_neg (by simp)]
    simp only [resolvedPhaseFor, headingUpdate, resolvePhase, hpfu]
    norm_num
    exact ⟨fun _ => rfl, fun _ => rfl, rfl, rfl, rfl, rfl⟩

/-- Witness for C7: a concrete anchor with an id is represented, a
concrete anchor without one is dropped without any effect, and the
spec's `§8` example anchor yields the default record. -/
theorem c7_id_anchors_emitted_idless_skipped_witness :
    (∃ m ∈ get_matches_from_tournament "E"
        [{ href := "/123456/team-a-vs-team-b-ur1", bracketNames := [], scoreLeft := none,
           scoreRight := none, sidebarNames := [], strips := [], hasRoundParent := false,
           phaseHeading := none }], m.match_id = "123456") ∧
    (get_matches_from_tournament "E"
        ([{ href := "/123456/team-a-vs-team-b-ur1", bracketNames := [], scoreLeft := none,
            scoreRight := none, sidebarNames := [], strips := [], hasRoundParent := false,
            phaseHeading := none }] ++
          { href := "/vct-2026", bracketNames := [], scoreLeft := none,
            scoreRight := none, sidebarNames := [], strips := [], hasRoundParent := false,
            phaseHeading := none } :: []) =
      get_matches_from_tournament "E"
        ([{ href := "/123456/team-a-vs-team-b-ur1", bracketNames := [], scoreLeft := none,
            scoreRight := none, sidebarNames := [], strips := [], hasRoundParent := false,
            phaseHeading := none }] ++ [])) ∧
    (get_matches_from_tournament "E"
        [{ href := "/123457/a-vs-b", bracketNames := [], scoreLeft := none,
           scoreRight := none, sidebarNames := [], strips := [], hasRoundParent := false,
           phaseHeading := none }] =
      [{ match_id := "123457", event_name := "E", tournament_phase := "Match",
         team1 := "TBD", team2 := "TBD", datetime_wib := none, datetime_str := "",
         match_url := urljoinModel BASE_URL "/123457/a-vs-b", score1 := none,
         score2 := none }]) :=
  ⟨c7_id_anchors_emitted_idless_skipped.1 "E"
      [{ href := "/123456/team-a-vs-team-b-ur1", bracketNames := [], scoreLeft := none,
         scoreRight := none, sidebarNames := [], strips := [], hasRoundParent := false,
         phaseHeading := none }]
      { href := "/123456/team-a-vs-team-b-ur1", bracketNames := [], scoreLeft := none,
        scoreRight := none, sidebarNames := [], strips := [], hasRoundParent := false,
        phaseHeading := none }
      (by simp) "123456" (by decide),
   c7_id_anchors_emitted_idless_skipped.2.1 "E"
      [{ href := "/123456/team-a-vs-team-b-ur1", bracketNames := [], scoreLeft := none,
         scoreRight := none, sidebarNames := [], strips := [], hasRoundParent := false,
         phaseHeading := none }] []
      { href := "/vct-2026", bracketNames := [], scoreLeft := none,
        scoreRight := none, sidebarNames := [], strips := [], hasRoundParent := false,
        phaseHeading := none }
      (by decide),
   c7_id_anchors_emitted_idless_skipped.2.2 "E" "/123457/a-vs-b" "123457" (by decide) (by decide)⟩

/-! ## Claim C8: tournament directory deduplication -/

/-- First-occurrence deduplication of tournaments by identifier. -/
def dedupByIdAux (seen : List String) : List Tournament → List Tournament
  | [] => []
  | t :: ts =>
      if t.event_id ∈ seen then dedupByIdAux seen ts
      else t :: dedupByIdAux (t.event_id :: seen) ts

theorem dedupByIdAux_congr : ∀ (ts : List Tournament) (s1 s2 : List String),
    (∀ x, x ∈ s1 ↔ x ∈ s2) → dedupByIdAux s1 ts = dedupByIdAux s2 ts
  | [], _, _, _ => rfl
  | t :: ts, s1, s2, h => by
      unfold dedupByIdAux
      by_cases hm : t.event_id ∈ s1
      · rw [if_pos hm, if_pos ((h _).mp hm)]
        exact dedupByIdAux_congr ts s1 s2 h
      · rw [if_neg hm, if_neg (fun hc => hm ((h _).mpr hc))]
        rw [dedupByIdAux_congr ts (t.event_id :: s1) (t.event_id :: s2)
          (fun x => by simp [List.mem_cons, h x])]

theorem tournamentsLoop_eq (excluded : List String) :
    ∀ (ls : List TLink) (acc : List Tournament),
      tournamentsLoop excluded ls acc =
        acc ++ dedupByIdAux (acc.map Tournament.event_id)
          (ls.filterMap (linkToTournament excluded))
  | [], acc => by simp [tournamentsLoop, dedupByIdAux]
  | l :: ls, acc => by
      unfold tournamentsLoop
      cases hl : linkToTournament excluded l with
      | none =>
          rw [List.filterMap_cons_none hl]
          exact tournamentsLoop_eq excluded ls acc
      | some t =>
          dsimp only
          rw [List.filterMap_cons_some hl]
          by_cases hdup : acc.any (fun t0 => t0.event_id = t.event_id)
          · rw [if_pos hdup]
            have hmem : t.event_id ∈ acc.map Tournament.event_id := by
              obtain ⟨t0, ht0, heq⟩ := by simpa using List.any_eq_true.mp hdup
              exact List.mem_map.mpr ⟨t0, ht0, heq⟩
            rw [dedupByIdAux, if_pos hmem]
            exact tournamentsLoop_eq excluded ls acc
          · rw [if_neg hdup]
            have hmem : t.event_id ∉ acc.map Tournament.event_id := by
              intro hc
              obtain ⟨t0, ht0, heq⟩ := List.mem_map.mp hc
              exact hdup (List.any_eq_true.mpr ⟨t0, ht0, by simp [heq]⟩)
            rw [dedupByIdAux, if_neg hmem]
            rw [tournamentsLoop_eq excluded ls (acc ++ [t])]
            rw [List.append_assoc]
            congr 1
            show [t] ++ _ = [t] ++ _
            congr 1
            refine dedupByIdAux_congr _ _ _ fun x => ?_
            simp [List.mem_append, List.mem_cons, or_comm]

theorem dedupByIdAux_nodup : ∀ (ts : List Tournament) (seen : List String),
    ((dedupByIdAux seen ts).map Tournament.event_id).Nodup ∧
      ∀ x ∈ (dedupByIdAux seen ts).map Tournament.event_id, x ∉ seen
  | [], seen => ⟨List.nodup_nil, by simp [dedupByIdAux]⟩
  | t :: ts, seen => by
      unfold dedupByIdAux
      by_cases hm : t.event_id ∈ seen
      · rw [if_pos hm]
        exact dedupByIdAux_nodup ts seen
      · rw [if_neg hm]
        obtain ⟨hnd, hns⟩ := dedupByIdAux_nodup ts (t.event_id :: seen)
        refine ⟨List.nodup_cons.mpr ⟨fun hc => (hns _ hc) (List.mem_cons_self _ _), hnd⟩, ?_⟩
        intro x hx
        rcases List.mem_cons.mp hx with hx | hx
        · rw [hx]; exact hm
        · exact fun hc => (hns x hx) (List.mem_cons_of_mem _ hc)

theorem dedupByIdAux_sublist : ∀ (ts : List Tournament) (seen : List String),
    (dedupByIdAux seen ts).Sublist ts
  | [], _ => List.Sublist.refl _
  | t :: ts, seen => by
      unfold dedupByIdAux
      by_cases hm : t.event_id ∈ seen
      · rw [if_pos hm]
        exact (dedupByIdAux_sublist ts seen).cons t
      · rw [if_neg hm]
        exact (dedupByIdAux_sublist ts (t.event_id :: seen)).cons₂ t

theorem dedupByIdAux_covered : ∀ (ts : List Tournament) (seen : List String)
    (c : Tournament), c ∈ ts → c.event_id ∉ seen →
      ∃ t ∈ dedupByIdAux seen ts, t.event_id = c.event_id
  | [], _, _, hc, _ => absurd hc (List.not_mem_nil _)
  | t :: ts, seen, c, hc, hcs => by
      unfold dedupByIdAux
      by_cases hm : t.event_id ∈ seen
      · rw [if_pos hm]
        rcases List.mem_cons.mp hc with heq | htail
        · exact absurd (heq ▸ hcs) (fun hc2 => hc2 hm)
        · exact dedupByIdAux_covered ts seen c htail hcs
      · rw [if_neg hm]
        rcases List.mem_cons.mp hc with heq | htail
        · exact ⟨t, List.mem_cons_self _ _, by rw [heq]⟩
        · by_cases hid : c.event_id = t.event_id
          · exact ⟨t, List.mem_cons_self _ _, hid.symm⟩
          · obtain ⟨t1, ht1, heq1⟩ := dedupByIdAux_covered ts (t.event_id :: seen) c htail
              (by simp [List.mem_cons, hid, hcs])
            exact ⟨t1, List.mem_cons_of_mem _ ht1, heq1⟩

theorem dedupByIdAux_first_wins : ∀ (ts : List Tournament) (seen : List String)
    (t : Tournament), t ∈ dedupByIdAux seen ts →
      ts.find? (fun c => c.event_id == t.event_id) = some t ∧ t.event_id ∉ seen
  | [], _, _, ht => absurd ht (List.not_mem_nil _)
  | c :: ts, seen, t, ht => by
      unfold dedupByIdAux at ht
      by_cases hm : c.event_id ∈ seen
      · rw [if_pos hm] at ht
        obtain ⟨hfind, hns⟩ := dedupByIdAux_first_wins ts seen t ht
        have hne : ¬ (c.event_id == t.event_id) = true := by
          simp only [beq_iff_eq]
          intro heq
          exact hns (heq ▸ hm)
        have hrw : List.find? (fun x => x.event_id == t.event_id) (c :: ts) =
            List.find? (fun x => x.event_id == t.event_id) ts :=
          List.find?_cons_of_neg ts hne
        rw [hrw]
        exact ⟨hfind, hns⟩
      · rw [if_neg hm] at ht
        rcases List.mem_cons.mp ht with heq | htail
        · subst heq
          have hrw : List.find? (fun x => x.event_id == t.event_id) (t :: ts) = some t :=
            List.find?_cons_of_pos ts (by simp)
          exact ⟨hrw, hm⟩
        · obtain ⟨hfind, hns⟩ := dedupByIdAux_first_wins ts (c.event_id :: seen) t htail
          have hne : t.event_id ≠ c.event_id := fun hc => hns (by rw [hc]; exact List.mem_cons_self _ _)
          have hrw : List.find? (fun x => x.event_id == t.event_id) (c :: ts) =
              List.find? (fun x => x.event_id == t.event_id) ts :=
            List.find?_cons_of_neg ts (by simp [Ne.symm hne])
          rw [hrw]
          exact ⟨hfind, fun hc => hns (List.mem_cons_of_mem _ hc)⟩

/-- C8: directory extraction deduplicates by identifier keeping
first-seen order — output identifiers are pairwise distinct, the output
is a subsequence of the per-link derived tournaments (first-seen
order), every derived identifier is represented, and each output entry
is exactly the first derived entry with its identifier. -/
theorem c8_directory_dedup_first_seen (excluded : List String) (links : List TLink) :
    ((get_tournaments excluded links).map Tournament.event_id).Nodup ∧
    (get_tournaments excluded links).Sublist (links.filterMap (linkToTournament excluded)) ∧
    (∀ c ∈ links.filterMap (linkToTournament excluded),
      ∃ t ∈ get_tournaments excluded links, t.event_id = c.event_id) ∧
    (∀ t ∈ get_tournaments excluded links,
      (links.filterMap (linkToTournament excluded)).find?
        (fun c => c.event_id == t.event_id) = some t) := by
  have hq : get_tournaments excluded links =
      dedupByIdAux [] (links.filterMap (linkToTournament excluded)) := by
    unfold get_tournaments
    rw [tournamentsLoop_eq excluded links []]
    rfl
  rw [hq]
  refine ⟨(dedupByIdAux_nodup _ _).1, dedupByIdAux_sublist _ _, ?_, ?_⟩
  · intro c hc
    exact dedupByIdAux_covered _ [] c hc (List.not_mem_nil _)
  · intro t ht
    exact (dedupByIdAux_first_wins _ [] t ht).1

/-- Witness for C8: two links deriving the same identifier `"2500"` with
different display text — the output has distinct identifiers and each
output entry is the first derived entry with its identifier; the shared
identifier is represented exactly through the first link's fields. -/
theorem c8_directory_dedup_first_seen_witness :
    ((get_tournaments []
        [{ href := "/event/2500/vct-2026-pacific-kickoff", datesText := some "Jan 15 - Feb 1" },
         { href := "/event/2500/vct-2026-pacific-kickoff-playoffs", datesText := none }]).map
        Tournament.event_id).Nodup ∧
    (∀ t ∈ get_tournaments []
        [{ href := "/event/2500/vct-2026-pacific-kickoff", datesText := some "Jan 15 - Feb 1" },
         { href := "/event/2500/vct-2026-pacific-kickoff-playoffs", datesText := none }],
      (([{ href := "/event/2500/vct-2026-pacific-kickoff", datesText := some "Jan 15 - Feb 1" },
          { href := "/event/2500/vct-2026-pacific-kickoff-playoffs", datesText := none }] :
            List TLink).filterMap (linkToTournament [])).find?
        (fun c => c.event_id == t.event_id) = some t) :=
  ⟨(c8_directory_dedup_first_seen []
      [{ href := "/event/2500/vct-2026-pacific-kickoff", datesText := some "Jan 15 - Feb 1" },
       { href := "/event/2500/vct-2026-pacific-kickoff-playoffs", datesText := none }]).1,
   (c8_directory_dedup_first_seen []
      [{ href := "/event/2500/vct-2026-pacific-kickoff", datesText := some "Jan 15 - Feb 1" },
       { href := "/event/2500/vct-2026-pacific-kickoff-playoffs", datesText := none }]).2.2.2⟩

/-! ## Claim C9: normalizer idempotence — digit and padding lemmas -/

/-- A datetime Python's `datetime` type can hold (and hence that the
Normalizer can return): the ranges `datetime.replace` and the parser
enforce. -/
def ValidDT (d : DT) : Prop :=
  1 ≤ d.year ∧ d.year ≤ 9999 ∧ 1 ≤ d.month ∧ d.month ≤ 12 ∧
    1 ≤ d.day ∧ d.day ≤ daysInMonth d.year d.month ∧ d.hour ≤ 23 ∧ d.minute ≤ 59

theorem digitChar_isDigit {k : Nat} (hk : k < 10) :
    (Char.ofNat (48 + k)).isDigit = true := by
  interval_cases k <;> decide

theorem digitChar_toNat {k : Nat} (hk : k < 10) :
    (Char.ofNat (48 + k)).toNat - 48 = k := by
  interval_cases k <;> decide

theorem digitChar_ne_colon {k : Nat} (hk : k < 10) : Char.ofNat (48 + k) ≠ ':' := by
  interval_cases k <;> decide

theorem digitChar_not_space {k : Nat} (hk : k < 10) :
    isPySpace (Char.ofNat (48 + k)) = false := by
  interval_cases k <;> decide

theorem padDigits_length (w v : Nat) : (padDigits w v).length = w := by
  induction w generalizing v with
  | zero => rfl
  | succ w ih => simp [padDigits, ih]

theorem div_pow_lt_ten {v w : Nat} (hv : v < 10 ^ (w + 1)) : v / 10 ^ w < 10 :=
  Nat.div_lt_of_lt_mul (by rw [← pow_succ]; exact hv)

theorem padDigits_mem (w v : Nat) (hv : v < 10 ^ w) :
    ∀ c ∈ padDigits w v, ∃ k : Nat, k < 10 ∧ c = Char.ofNat (48 + k) := by
  induction w generalizing v with
  | zero => intro c hc; exact absurd hc (List.not_mem_nil _)
  | succ w ih =>
      intro c hc
      rcases List.mem_cons.mp hc with hh | ht
      · exact ⟨v / 10 ^ w, div_pow_lt_ten hv, hh⟩
      · exact ih (v % 10 ^ w) (Nat.mod_lt _ (Nat.pos_pow_of_pos _ (by norm_num))) c ht

theorem readExactDigitsAux_pad (w : Nat) :
    ∀ (v acc : Nat) (r : List Char), v < 10 ^ w →
      readExactDigitsAux acc w (padDigits w v ++ r) = some (acc * 10 ^ w + v, r) := by
  induction w with
  | zero => intro v acc r hv; interval_cases v; simp [padDigits, readExactDigitsAux]
  | succ w ih =>
      intro v acc r hv
      have hq : v / 10 ^ w < 10 := div_pow_lt_ten hv
      have hm : v % 10 ^ w < 10 ^ w := Nat.mod_lt _ (Nat.pos_pow_of_pos _ (by norm_num))
      show readExactDigitsAux acc (w + 1)
          (Char.ofNat (48 + v / 10 ^ w) :: (padDigits w (v % 10 ^ w) ++ r)) = _
      rw [readExactDigitsAux]
      rw [if_pos (digitChar_isDigit hq), digitChar_toNat hq]
      rw [ih (v % 10 ^ w) (acc * 10 + v / 10 ^ w) r hm]
      congr 2
      have hdm := Nat.div_add_mod v (10 ^ w)
      calc (acc * 10 + v / 10 ^ w) * 10 ^ w + v % 10 ^ w
          = acc * (10 ^ w * 10) + (10 ^ w * (v / 10 ^ w) + v % 10 ^ w) := by ring
        _ = acc * 10 ^ (w + 1) + v := by rw [hdm, pow_succ]

theorem readExactDigits_pad (w v : Nat) (r : List Char) (hv : v < 10 ^ w) :
    readExactDigits w (padDigits w v ++ r) = some (v, r) := by
  unfold readExactDigits
  rw [readExactDigitsAux_pad w v 0 r hv, Nat.zero_mul, Nat.zero_add]

theorem readExactDigits_pad_nil (w v : Nat) (hv : v < 10 ^ w) :
    readExactDigits w (padDigits w v) = some (v, []) := by
  rw [← List.append_nil (padDigits w v)]
  exact readExactDigits_pad w v [] hv

theorem isDigit_toNat_le {c : Char} (h : c.isDigit = true) : c.toNat - 48 ≤ 9 := by
  simp only [Char.isDigit, Bool.and_eq_true, decide_eq_true_eq] at h
  have h1 : c.toNat ≤ 57 := h.2
  omega

theorem readExactDigitsAux_lt : ∀ (w acc : Nat) (s : List Char) (v : Nat) (r : List Char),
    readExactDigitsAux acc w s = some (v, r) → v < (acc + 1) * 10 ^ w
  | 0, acc, s, v, r, h => by
      unfold readExactDigitsAux at h
      simp only [Option.some.injEq, Prod.mk.injEq] at h
      rw [← h.1]
      simp
  | w + 1, acc, [], v, r, h => by cases h
  | w + 1, acc, c :: s, v, r, h => by
      unfold readExactDigitsAux at h
      by_cases hc : c.isDigit
      · rw [if_pos hc] at h
        have := readExactDigitsAux_lt w (acc * 10 + (c.toNat - 48)) s v r h
        have hd9 : c.toNat - 48 ≤ 9 := isDigit_toNat_le hc
        calc v < (acc * 10 + (c.toNat - 48) + 1) * 10 ^ w := this
          _ ≤ ((acc + 1) * 10) * 10 ^ w := by
              have : acc * 10 + (c.toNat - 48) + 1 ≤ (acc + 1) * 10 := by omega
              exact Nat.mul_le_mul_right _ this
          _ = (acc + 1) * 10 ^ (w + 1) := by ring
      · rw [if_neg hc] at h; cases h

theorem readExactDigits_lt {w : Nat} {s : List Char} {v : Nat} {r : List Char}
    (h : readExactDigits w s = some (v, r)) : v < 10 ^ w := by
  have := readExactDigitsAux_lt w 0 s v r h
  simpa using this

/-! ## Claim C9: the WIB-strip/whitespace pipeline is the identity on
canonical rendered datetimes -/

theorem toList_asString (l : List Char) : l.asString.toList = l := rfl

theorem asString_toList (s : String) : s.toList.asString = s := rfl

theorem daysInMonth_le_31 (y m : Nat) : daysInMonth y m ≤ 31 := by
  unfold daysInMonth
  split
  · split <;> norm_num
  · split <;> norm_num

/-- The canonical form, decomposed at its single space: a solid date
part, one space, a solid time part. -/
theorem render_split (d : DT) :
    (DT.render d).toList =
      (padDigits 4 d.year ++ '-' :: padDigits 2 d.month ++ '-' :: padDigits 2 d.day) ++
        ' ' :: (padDigits 2 d.hour ++ ':' :: padDigits 2 d.minute ++ ':' :: padDigits 2 0) := by
  show padDigits 4 d.year ++ '-' :: padDigits 2 d.month ++ '-' :: padDigits 2 d.day ++
      ' ' :: padDigits 2 d.hour ++ ':' :: padDigits 2 d.minute ++ ':' :: padDigits 2 0 = _
  simp [List.append_assoc]

theorem date_part_chars (d : DT) (hv : ValidDT d) :
    ∀ c ∈ padDigits 4 d.year ++ '-' :: padDigits 2 d.month ++ '-' :: padDigits 2 d.day,
      (∃ k, k < 10 ∧ c = Char.ofNat (48 + k)) ∨ c = '-' := by
  intro c hc
  have hy : d.year < 10 ^ 4 := by have := hv.2.1; norm_num; omega
  have hmo : d.month < 10 ^ 2 := by have := hv.2.2.2.1; norm_num; omega
  have hdy : d.day < 10 ^ 2 := by
    have h1 := hv.2.2.2.2.2.1
    have h2 := daysInMonth_le_31 d.year d.month
    norm_num
    omega
  rcases List.mem_append.mp hc with h | h
  · rcases List.mem_append.mp h with h1 | h1
    · exact Or.inl (padDigits_mem 4 d.year hy c h1)
    · rcases List.mem_cons.mp h1 with rfl | h2
      · exact Or.inr rfl
      · exact Or.inl (padDigits_mem 2 d.month hmo c h2)
  · rcases List.mem_cons.mp h with rfl | h1
    · exact Or.inr rfl
    · exact Or.inl (padDigits_mem 2 d.day hdy c h1)

theorem time_part_chars (d : DT) (hv : ValidDT d) :
    ∀ c ∈ padDigits 2 d.hour ++ ':' :: padDigits 2 d.minute ++ ':' :: padDigits 2 0,
      (∃ k, k < 10 ∧ c = Char.ofNat (48 + k)) ∨ c = ':' := by
  intro c hc
  have hh : d.hour < 10 ^ 2 := by have := hv.2.2.2.2.2.2.1; norm_num; omega
  have hmi : d.minute < 10 ^ 2 := by have := hv.2.2.2.2.2.2.2; norm_num; omega
  rcases List.mem_append.mp hc with h | h
  · rcases List.mem_append.mp h with h1 | h1
    · exact Or.inl (padDigits_mem 2 d.hour hh c h1)
    · rcases List.mem_cons.mp h1 with rfl | h2
      · exact Or.inr rfl
      · exact Or.inl (padDigits_mem 2 d.minute hmi c h2)
  · rcases List.mem_cons.mp h with rfl | h1
    · exact Or.inr rfl
    · exact Or.inl (padDigits_mem 2 0 (by norm_num) c h1)

theorem solid_date_part (d : DT) (hv : ValidDT d) :
    ∀ c ∈ padDigits 4 d.year ++ '-' :: padDigits 2 d.month ++ '-' :: padDigits 2 d.day,
      isPySpace c = false := by
  intro c hc
  rcases date_part_chars d hv c hc with ⟨k, hk, rfl⟩ | rfl
  · exact digitChar_not_space hk
  · decide

theorem solid_time_part (d : DT) (hv : ValidDT d) :
    ∀ c ∈ padDigits 2 d.hour ++ ':' :: padDigits 2 d.minute ++ ':' :: padDigits 2 0,
      isPySpace c = false := by
  intro c hc
  rcases time_part_chars d hv c hc with ⟨k, hk, rfl⟩ | rfl
  · exact digitChar_not_space hk
  · decide

theorem render_no_W (d : DT) (hv : ValidDT d) : 'W' ∉ (DT.render d).toList := by
  intro hc
  rw [render_split] at hc
  have hdig : ∀ k : Nat, k < 10 → 'W' = Char.ofNat (48 + k) → False := by
    intro k hk he
    have := digitChar_isDigit hk
    rw [← he] at this
    exact absurd this (by decide)
  rcases List.mem_append.mp hc with h | h
  · rcases date_part_chars d hv 'W' h with ⟨k, hk, he⟩ | he
    · exact hdig k hk he
    · exact absurd he (by decide)
  · rcases List.mem_cons.mp h with he | h2
    · exact absurd he (by decide)
    · rcases time_part_chars d hv 'W' h2 with ⟨k, hk, he⟩ | he
      · exact hdig k hk he
      · exact absurd he (by decide)

theorem pyReplaceAux_no_occ (c0 : Char) (pt rep : List Char) :
    ∀ (fuel : Nat) (s : List Char), c0 ∉ s →
      pyReplaceAux (c0 :: pt) rep fuel s = s
  | 0, s, _ => rfl
  | fuel + 1, [], _ => rfl
  | fuel + 1, c :: t, hno => by
      show (if (c0 :: pt) ≠ [] ∧ (c0 :: pt).isPrefixOf (c :: t) then _ else
        c :: pyReplaceAux (c0 :: pt) rep fuel t) = c :: t
      rw [if_neg, pyReplaceAux_no_occ c0 pt rep fuel t
        (fun hm => hno (List.mem_cons_of_mem _ hm))]
      intro hcond
      have hpre := hcond.2
      simp only [List.isPrefixOf, Bool.and_eq_true, beq_iff_eq] at hpre
      exact hno (hpre.1 ▸ List.mem_cons_self _ _)

theorem strReplace_id_of_no_occ (s pat rep : String) (c0 : Char) (pt : List Char)
    (hp : pat.toList = c0 :: pt) (hno : c0 ∉ s.toList) : strReplace s pat rep = s := by
  unfold strReplace pyReplace
  rw [hp, pyReplaceAux_no_occ c0 pt rep.toList s.toList.length s.toList hno]
  exact asString_toList s

theorem pyStrip_eq_self (s : List Char)
    (h1 : ∀ c, s.head? = some c → isPySpace c = false)
    (h2 : ∀ c, s.getLast? = some c → isPySpace c = false) : pyStrip s = s := by
  unfold pyStrip
  have hd : s.dropWhile isPySpace = s := by
    cases s with
    | nil => rfl
    | cons c t =>
        rw [List.dropWhile_cons, h1 c rfl]
        simp
  rw [hd]
  have hr : s.reverse.dropWhile isPySpace = s.reverse := by
    cases hrev : s.reverse with
    | nil => rfl
    | cons c t =>
        have hlast : s.getLast? = some c := by
          rw [← List.head?_reverse, hrev]
          rfl
        rw [List.dropWhile_cons, h2 c hlast]
        simp
  rw [hr, List.reverse_reverse]

theorem render_head (d : DT) :
    (DT.render d).toList.head? = some (Char.ofNat (48 + d.year / 10 ^ 3)) := rfl

theorem render_getLast (d : DT) : (DT.render d).toList.getLast? = some '0' := by
  have e2 : (DT.render d).toList =
      (padDigits 4 d.year ++ '-' :: padDigits 2 d.month ++ '-' :: padDigits 2 d.day ++
        ' ' :: padDigits 2 d.hour ++ ':' :: padDigits 2 d.minute ++ [':']) ++ padDigits 2 0 := by
    show padDigits 4 d.year ++ '-' :: padDigits 2 d.month ++ '-' :: padDigits 2 d.day ++
        ' ' :: padDigits 2 d.hour ++ ':' :: padDigits 2 d.minute ++ ':' :: padDigits 2 0 = _
    simp [List.append_assoc]
  rw [e2, List.getLast?_append_of_ne_nil _ (by decide)]
  decide

theorem strStrip_render (d : DT) (hv : ValidDT d) :
    strStrip (DT.render d) = DT.render d := by
  unfold strStrip
  rw [pyStrip_eq_self]
  · exact asString_toList _
  · intro c hc
    rw [render_head] at hc
    have hy : d.year < 10 ^ 4 := by have := hv.2.1; norm_num; omega
    have : d.year / 10 ^ 3 < 10 := div_pow_lt_ten hy
    rw [Option.some.injEq] at hc
    rw [← hc]
    exact digitChar_not_space this
  · intro c hc
    rw [render_getLast, Option.some.injEq] at hc
    rw [← hc]
    decide

theorem collapseWsAux_solid (s : List Char) (h : ∀ c ∈ s, isPySpace c = false)
    (flag : Bool) : collapseWsAux flag s = s := by
  induction s generalizing flag with
  | nil => rfl
  | cons c t ih =>
      have hc : isPySpace c = false := h c (List.mem_cons_self _ _)
      simp [collapseWsAux, hc, ih (fun x hx => h x (List.mem_cons_of_mem _ hx))]

theorem collapseWs_mid (D T : List Char) (hD : ∀ c ∈ D, isPySpace c = false)
    (hT : ∀ c ∈ T, isPySpace c = false) :
    collapseWs (D ++ ' ' :: T) = D ++ ' ' :: T := by
  unfold collapseWs
  induction D with
  | nil =>
      show collapseWsAux false (' ' :: T) = ' ' :: T
      have hsp : isPySpace ' ' = true := by decide
      simp [collapseWsAux, hsp, collapseWsAux_solid T hT true]
  | cons c D' ih =>
      have hc : isPySpace c = false := hD c (List.mem_cons_self _ _)
      show collapseWsAux false (c :: (D' ++ ' ' :: T)) = c :: (D' ++ ' ' :: T)
      simp only [collapseWsAux, hc, Bool.false_eq_true, if_false]
      rw [ih (fun x hx => hD x (List.mem_cons_of_mem _ hx))]

theorem collapseWs_render (d : DT) (hv : ValidDT d) :
    collapseWs (DT.render d).toList = (DT.render d).toList := by
  rw [render_split]
  exact collapseWs_mid _ _ (solid_date_part d hv) (solid_time_part d hv)

theorem render_length19 (d : DT) : (DT.render d).toList.length = 19 := by
  show (padDigits 4 d.year ++ '-' :: padDigits 2 d.month ++ '-' :: padDigits 2 d.day ++
      ' ' :: padDigits 2 d.hour ++ ':' :: padDigits 2 d.minute ++ ':' :: padDigits 2 0).length = 19
  simp [List.length_append, padDigits_length]

theorem render_ne_empty (d : DT) : DT.render d ≠ "" := by
  intro h
  have h2 := congrArg List.length (congrArg String.toList h)
  rw [render_length19] at h2
  exact absurd h2 (by decide)

theorem render_ne_dash (d : DT) : DT.render d ≠ "-" := by
  intro h
  have h2 := congrArg List.length (congrArg String.toList h)
  rw [render_length19] at h2
  exact absurd h2 (by decide)

/-! ## Claim C9: re-parsing the canonical form -/

theorem expectChar_cons_self (c : Char) (s : List Char) : expectChar c (c :: s) = some s := by
  simp [expectChar]

/-- The canonical form fully right-associated, the shape the reading
lemmas consume. -/
theorem render_assoc (d : DT) :
    (DT.render d).toList =
      padDigits 4 d.year ++ '-' :: (padDigits 2 d.month ++ '-' :: (padDigits 2 d.day ++
        ' ' :: (padDigits 2 d.hour ++ ':' :: (padDigits 2 d.minute ++
          ':' :: padDigits 2 0)))) := by
  show padDigits 4 d.year ++ '-' :: padDigits 2 d.month ++ '-' :: padDigits 2 d.day ++
      ' ' :: padDigits 2 d.hour ++ ':' :: padDigits 2 d.minute ++ ':' :: padDigits 2 0 = _
  simp [List.append_assoc]

theorem parseTimeMonthDay_render_none (d : DT) (hv : ValidDT d) :
    parseTimeMonthDay (DT.render d).toList = none := by
  have hy : d.year < 10 ^ 4 := by have := hv.2.1; norm_num; omega
  have h0 : d.year / 10 ^ 3 < 10 := div_pow_lt_ten hy
  have h1 : d.year % 10 ^ 3 / 10 ^ 2 < 10 :=
    div_pow_lt_ten (Nat.mod_lt _ (Nat.pos_pow_of_pos _ (by norm_num)))
  have h2 : d.year % 10 ^ 3 % 10 ^ 2 / 10 ^ 1 < 10 :=
    div_pow_lt_ten (Nat.mod_lt _ (Nat.pos_pow_of_pos _ (by norm_num)))
  show parseTimeMonthDay
      (Char.ofNat (48 + d.year / 10 ^ 3) :: Char.ofNat (48 + d.year % 10 ^ 3 / 10 ^ 2) ::
        Char.ofNat (48 + d.year % 10 ^ 3 % 10 ^ 2 / 10 ^ 1) :: _) = none
  unfold parseTimeMonthDay
  rw [readDigits12]
  rw [if_pos (digitChar_isDigit h0), if_pos (digitChar_isDigit h1)]
  dsimp only
  rw [expectChar]
  rw [if_neg (digitChar_ne_colon h2)]

theorem parseIsoDateTime_render (d : DT) (hv : ValidDT d) :
    parseIsoDateTime (DT.render d).toList = some d := by
  have hy4 : d.year < 10 ^ 4 := by have := hv.2.1; norm_num; omega
  have hmo2 : d.month < 10 ^ 2 := by have := hv.2.2.2.1; norm_num; omega
  have hdy2 : d.day < 10 ^ 2 := by
    have h1 := hv.2.2.2.2.2.1
    have h2 := daysInMonth_le_31 d.year d.month
    norm_num
    omega
  have hh2 : d.hour < 10 ^ 2 := by have := hv.2.2.2.2.2.2.1; norm_num; omega
  have hmi2 : d.minute < 10 ^ 2 := by have := hv.2.2.2.2.2.2.2; norm_num; omega
  rw [render_assoc]
  unfold parseIsoDateTime
  rw [readExactDigits_pad 4 d.year _ hy4]
  dsimp only
  rw [expectChar_cons_self]
  dsimp only
  rw [readExactDigits_pad 2 d.month _ hmo2]
  dsimp only
  rw [expectChar_cons_self]
  dsimp only
  rw [readExactDigits_pad 2 d.day _ hdy2]
  dsimp only
  rw [expectChar_cons_self]
  dsimp only
  rw [readExactDigits_pad 2 d.hour _ hh2]
  dsimp only
  rw [expectChar_cons_self]
  dsimp only
  rw [readExactDigits_pad 2 d.minute _ hmi2]
  dsimp only
  rw [expectChar_cons_self]
  dsimp only
  rw [readExactDigits_pad_nil 2 0 (by norm_num)]
  dsimp only
  rw [if_pos ⟨rfl, hv.1, hv.2.2.1, hv.2.2.2.1, hv.2.2.2.2.1, hv.2.2.2.2.2.1,
    hv.2.2.2.2.2.2.1, hv.2.2.2.2.2.2.2, rfl⟩]

/-! ## Claim C9: every value the parser accepts is a valid datetime -/

theorem readMonthName_bounds {s : List Char} {mo : Nat} {r : List Char}
    (h : readMonthName s = some (mo, r)) : 1 ≤ mo ∧ mo ≤ 12 := by
  unfold readMonthName at h
  split at h
  · split at h
    · rename_i p hfind
      have hmem := List.mem_of_find?_eq_some hfind
      simp only [Option.some.injEq, Prod.mk.injEq] at h
      rw [← h.1]
      simp only [monthNames, List.mem_cons, List.not_mem_nil, or_false] at hmem
      rcases hmem with rfl | rfl | rfl | rfl | rfl | rfl | rfl | rfl | rfl | rfl | rfl | rfl <;>
        exact ⟨by norm_num, by norm_num⟩
    · cases h
  · cases h

theorem parseTimeMonthDay_valid {s : List Char} {d : DT}
    (h : parseTimeMonthDay s = some d) : ValidDT d := by
  unfold parseTimeMonthDay at h
  cases h1 : readDigits12 s with
  | none => rw [h1] at h; cases h
  | some p1 =>
  rw [h1] at h
  obtain ⟨h12, s1⟩ := p1
  dsimp only at h
  cases h2 : expectChar ':' s1 with
  | none => rw [h2] at h; cases h
  | some s2 =>
  rw [h2] at h
  dsimp only at h
  cases h3 : readExactDigits 2 s2 with
  | none => rw [h3] at h; cases h
  | some p3 =>
  rw [h3] at h
  obtain ⟨mi, s3⟩ := p3
  dsimp only at h
  cases h4 : readMeridiem (skipSpaces s3) with
  | none => rw [h4] at h; cases h
  | some p4 =>
  rw [h4] at h
  obtain ⟨isPm, s4⟩ := p4
  dsimp only at h
  cases h5 : readMonthName (skipSpaces s4) with
  | none => rw [h5] at h; cases h
  | some p5 =>
  rw [h5] at h
  obtain ⟨mo, s5⟩ := p5
  dsimp only at h
  cases h6 : readDigits12 (skipSpaces s5) with
  | none => rw [h6] at h; cases h
  | some p6 =>
  rw [h6] at h
  obtain ⟨day, s6⟩ := p6
  dsimp only at h
  by_cases hcond : s6 = [] ∧ 1 ≤ h12 ∧ h12 ≤ 12 ∧ mi ≤ 59 ∧ 1 ≤ day ∧ day ≤ daysInMonth 1900 mo
  · rw [if_pos hcond] at h
    cases h
    obtain ⟨hs6, hh12lo, hh12hi, hmi, hdaylo, hdayhi⟩ := hcond
    obtain ⟨hmo1, hmo2⟩ := readMonthName_bounds h5
    refine ⟨by norm_num, by norm_num, hmo1, hmo2, hdaylo, hdayhi, ?_, hmi⟩
    show (if isPm then h12 % 12 + 12 else h12 % 12) ≤ 23
    have hm12 : h12 % 12 < 12 := Nat.mod_lt _ (by norm_num)
    split <;> omega
  · rw [if_neg hcond] at h
    cases h

theorem parseIsoDateTime_valid {s : List Char} {d : DT}
    (h : parseIsoDateTime s = some d) : ValidDT d := by
  unfold parseIsoDateTime at h
  cases h1 : readExactDigits 4 s with
  | none => rw [h1] at h; cases h
  | some p1 =>
  rw [h1] at h
  obtain ⟨y, s1⟩ := p1
  dsimp only at h
  cases h2 : expectChar '-' s1 with
  | none => rw [h2] at h; cases h
  | some s2 =>
  rw [h2] at h
  dsimp only at h
  cases h3 : readExactDigits 2 s2 with
  | none => rw [h3] at h; cases h
  | some p3 =>
  rw [h3] at h
  obtain ⟨mo, s3⟩ := p3
  dsimp only at h
  cases h4 : expectChar '-' s3 with
  | none => rw [h4] at h; cases h
  | some s4 =>
  rw [h4] at h
  dsimp only at h
  cases h5 : readExactDigits 2 s4 with
  | none => rw [h5] at h; cases h
  | some p5 =>
  rw [h5] at h
  obtain ⟨day, s5⟩ := p5
  dsimp only at h
  cases h6 : expectChar ' ' s5 with
  | none => rw [h6] at h; cases h
  | some s6 =>
  rw [h6] at h
  dsimp only at h
  cases h7 : readExactDigits 2 s6 with
  | none => rw [h7] at h; cases h
  | some p7 =>
  rw [h7] at h
  obtain ⟨hh, s7⟩ := p7
  dsimp only at h
  cases h8 : expectChar ':' s7 with
  | none => rw [h8] at h; cases h
  | some s8 =>
  rw [h8] at h
  dsimp only at h
  cases h9 : readExactDigits 2 s8 with
  | none => rw [h9] at h; cases h
  | some p9 =>
  rw [h9] at h
  obtain ⟨mi, s9⟩ := p9
  dsimp only at h
  cases h10 : expectChar ':' s9 with
  | none => rw [h10] at h; cases h
  | some s10 =>
  rw [h10] at h
  dsimp only at h
  cases h11 : readExactDigits 2 s10 with
  | none => rw [h11] at h; cases h
  | some p11 =>
  rw [h11] at h
  obtain ⟨sec, s11⟩ := p11
  dsimp only at h
  by_cases hcond : s11 = [] ∧ 1 ≤ y ∧ 1 ≤ mo ∧ mo ≤ 12 ∧ 1 ≤ day ∧
      day ≤ daysInMonth y mo ∧ hh ≤ 23 ∧ mi ≤ 59 ∧ sec = 0
  · rw [if_pos hcond] at h
    cases h
    obtain ⟨hs11, hy1, hmo1, hmo2, hd1, hd2, hh23, hmi59, hsec⟩ := hcond
    have hylt : y < 10 ^ 4 := readExactDigits_lt h1
    refine ⟨hy1, ?_, hmo1, hmo2, hd1, hd2, hh23, hmi59⟩
    show y ≤ 9999
    norm_num at hylt
    omega
  · rw [if_neg hcond] at h
    cases h

theorem fuzzyParse_valid {s : String} {d : DT} (h : fuzzyParse s = some d) : ValidDT d := by
  unfold fuzzyParse at h
  split at h
  · rename_i da hda
    rw [Option.some.injEq] at h
    rw [← h]
    exact parseTimeMonthDay_valid hda
  · exact parseIsoDateTime_valid h

/-- The year fact needed for idempotence: a parsed result with an
implausible year carries exactly the supplied default. -/
theorem parse_wib_datetime_props {s : String} {y : Nat} {d : DT}
    (h : parse_wib_datetime s y = some d) : ValidDT d ∧ (d.year < 2020 → d.year = y) := by
  unfold parse_wib_datetime at h
  split at h
  · cases h
  · dsimp only at h
    split at h
    · cases h
    · rename_i d0 hfz
      split at h
      · rename_i hcond
        unfold replaceYearChecked at h
        split at h
        · rename_i hrep
          cases h
          have hv0 := fuzzyParse_valid hfz
          exact ⟨⟨hrep.1, hrep.2.1, hv0.2.2.1, hv0.2.2.2.1, hv0.2.2.2.2.1, hrep.2.2,
            hv0.2.2.2.2.2.2.1, hv0.2.2.2.2.2.2.2⟩, fun _ => rfl⟩
        · cases h
      · rename_i hcond
        cases h
        refine ⟨fuzzyParse_valid hfz, fun hlt => absurd (Or.inr hlt) hcond⟩

/-- C9: the Normalizer is idempotent — re-parsing the canonical string
form of its own result (with the same default year) yields the same
point in time. -/
theorem c9_normalizer_idempotent (s : String) (y : Nat) (d : DT)
    (h : parse_wib_datetime s y = some d) :
    parse_wib_datetime (DT.render d) y = some d := by
  obtain ⟨hv, hyy⟩ := parse_wib_datetime_props h
  unfold parse_wib_datetime
  rw [if_neg (by push_neg; exact ⟨render_ne_empty d, render_ne_dash d⟩)]
  dsimp only
  rw [strReplace_id_of_no_occ _ _ _ 'W' ['I', 'B', ','] rfl (render_no_W d hv)]
  rw [strReplace_id_of_no_occ _ _ _ 'W' ['I', 'B'] rfl (render_no_W d hv)]
  rw [strStrip_render d hv]
  rw [collapseWs_render d hv]
  rw [asString_toList]
  have hfz : fuzzyParse (DT.render d) = some d := by
    unfold fuzzyParse
    rw [parseTimeMonthDay_render_none d hv]
    exact parseIsoDateTime_render d hv
  rw [hfz]
  dsimp only
  by_cases hlt : d.year = 1900 ∨ d.year < 2020
  · rw [if_pos hlt]
    have hdy : d.year = y := by
      refine hyy ?_
      rcases hlt with h1 | h1
      · rw [h1]; norm_num
      · exact h1
    unfold replaceYearChecked
    rw [if_pos ⟨hdy ▸ hv.1, hdy ▸ hv.2.1, hdy ▸ hv.2.2.2.2.2.1⟩]
    rw [← hdy]
  · rw [if_neg hlt]

/-- Witness for C9 at the spec's example text. -/
theorem c9_normalizer_idempotent_witness :
    parse_wib_datetime "11:00 pm WIB, Jan 20" 2026 = some ⟨2026, 1, 20, 23, 0⟩ ∧
    parse_wib_datetime (DT.render ⟨2026, 1, 20, 23, 0⟩) 2026 = some ⟨2026, 1, 20, 23, 0⟩ :=
  ⟨by decide,
   c9_normalizer_idempotent "11:00 pm WIB, Jan 20" 2026 ⟨2026, 1, 20, 23, 0⟩ (by decide)⟩

end VCT
